import Mathlib

/-! Temperature statistics on an OpenCL device: the host driver.

A shallow embedding of `ParallelComputing/main.cpp`.  Floating values are
taken in exact arithmetic (`ℚ`), `int` values are `ℤ`, sizes are `ℕ`.
Vectors and device buffers are lists.  The range of `float` is checked
where a text is converted to it and the range of `int` where a reading is
cast to it; sums of `int` wrap.
-/

deriving instance DecidableEq for Except

namespace TemperatureAnalysis

/-! ## Conversions -/

/-- Conversion of a floating value to `int`, as the cast `(int)x` and the
implicit conversion on `vector<int>::insert` of floating elements do it:
the fractional part is discarded (truncation toward zero).  This is the
result of the conversion when it lies in the range of `int`, which it does
for the zeros of the padding (line 181) and for the mean of
`integer_reduction` (line 835), an `int` divided by an entry count; the cast
of a reading (line 400) is checked in `fixed_point`. -/
def float_to_int (x : ℚ) : ℤ :=
  if 0 ≤ x then ⌊x⌋ else ⌈x⌉

/-- The value is in the range of `int` (32 bits, two's complement). -/
def int_range (v : ℤ) : Bool :=
  decide (-2147483648 ≤ v) && decide (v ≤ 2147483647)

/-- Ten times a value with the fractional part discarded. -/
def truncated_tenths (x : ℚ) : ℤ := float_to_int (x * 10)

/-! ## Reading the dataset (lines 266-404) -/

/-- Ways the parse of a line yields no value of exact arithmetic. -/
inductive ParseFault
  /-- No conversion could be performed: `stof` throws `std::invalid_argument`. -/
  | invalid_argument
  /-- The value is too large for `float`: `strtof` reports `ERANGE` and
  `stof` throws `std::out_of_range`. -/
  | out_of_range
  /-- The text is an infinity or a NaN: `stof` returns a non-finite value and
  the program goes on with it.  Exact arithmetic has no such value, and the
  model does not follow the run further. -/
  | non_finite
  /-- The cast `(int)` of line 400 met a value outside the range of `int`:
  the conversion has no defined result (undefined behaviour), and the model
  does not follow the run further. -/
  | cast_out_of_range
deriving DecidableEq

/-- The characters `isspace` accepts in the C locale. -/
def is_space (c : Char) : Bool :=
  c.toNat = 32 || (9 ≤ c.toNat && c.toNat ≤ 13)

/-- Value of a digit in `base` (10 or 16), when the character is one. -/
def digit_value (base : ℕ) (c : Char) : Option ℕ :=
  if 48 ≤ c.toNat ∧ c.toNat ≤ 57 then some (c.toNat - 48)
  else if base = 16 ∧ 97 ≤ c.toNat ∧ c.toNat ≤ 102 then some (c.toNat - 87)
  else if base = 16 ∧ 65 ≤ c.toNat ∧ c.toNat ≤ 70 then some (c.toNat - 55)
  else none

/-- Lower-case form of an ASCII letter. -/
def to_lower (c : Char) : Char :=
  if 65 ≤ c.toNat ∧ c.toNat ≤ 90 then Char.ofNat (c.toNat + 32) else c

/-- The text starts with `word`, letter case ignored (`word` is lower case). -/
def starts_with_ci (word : List Char) (s : List Char) : Bool :=
  (s.take word.length).map to_lower = word

/-- The longest run of digits at the start, as digit values, and the rest. -/
def span_digits (base : ℕ) : List Char → List ℕ × List Char
  | [] => ([], [])
  | c :: rest =>
    match digit_value base c with
    | none => ([], c :: rest)
    | some d => (d :: (span_digits base rest).1, (span_digits base rest).2)

/-- The number written by digit values in `base`. -/
def digits_number (base : ℕ) (ds : List ℕ) : ℕ :=
  ds.foldl (fun acc d => base * acc + d) 0

/-- A digit sequence with an optional radix point and at least one digit:
its value and the rest of the text. -/
def parse_mantissa (base : ℕ) (s : List Char) : Option (ℚ × List Char) :=
  let whole := span_digits base s
  let fraction : List ℕ × List Char :=
    match whole.2 with
    | '.' :: t => span_digits base t
    | _ => ([], whole.2)
  if whole.1 = [] ∧ fraction.1 = [] then none
  else
    some ((digits_number base (whole.1 ++ fraction.1) : ℚ) / (base : ℚ) ^ fraction.1.length,
      fraction.2)

/-- An optional exponent part introduced by `marker` (`e` or `p`): a sign and
at least one decimal digit.  Without one the exponent is `0`. -/
def parse_exponent (marker : Char) (s : List Char) : ℤ :=
  match s with
  | [] => 0
  | c :: t =>
    if to_lower c = marker then
      let signed : Bool × List Char :=
        match t with
        | '-' :: u => (true, u)
        | '+' :: u => (false, u)
        | _ => (false, t)
      let ds := (span_digits 10 signed.2).1
      if ds = [] then 0
      else if signed.1 then -(digits_number 10 ds : ℤ) else (digits_number 10 ds : ℤ)
    else 0

/-- Scaling of `m` by `radix ^ e` for an integer exponent. -/
def scale (m : ℚ) (radix : ℕ) (e : ℤ) : ℚ :=
  if 0 ≤ e then m * (radix : ℚ) ^ e.toNat else m / (radix : ℚ) ^ (-e).toNat

/-- The unsigned part of a floating literal as `strtof` reads it: an
infinity or NaN, a hexadecimal literal, or a decimal literal; trailing text
is ignored. -/
def parse_unsigned (s : List Char) : Except ParseFault ℚ :=
  if starts_with_ci ['i', 'n', 'f'] s || starts_with_ci ['n', 'a', 'n'] s then
    .error .non_finite
  else
    let hex : Option (ℚ × List Char) :=
      match s with
      | '0' :: x :: t => if to_lower x = 'x' then parse_mantissa 16 t else none
      | _ => none
    match hex with
    | some (m, rest) => .ok (scale m 2 (parse_exponent 'p' rest))
    | none =>
      match parse_mantissa 10 s with
      | some (m, rest) => .ok (scale m 10 (parse_exponent 'e' rest))
      | none => .error .invalid_argument

/-- The literal `strtof` reads, in exact arithmetic: leading white space is
skipped, an optional sign is read, then the longest floating literal; the
value is not rounded to `float`. -/
def strtof (s : List Char) : Except ParseFault ℚ :=
  match s.dropWhile is_space with
  | '-' :: t => (parse_unsigned t).map (fun x => -x)
  | '+' :: t => parse_unsigned t
  | t => parse_unsigned t

/-- The least magnitude that rounds beyond the largest `float`,
`2^128 - 2^104`: half a unit in the last place above it, `2^128 - 2^103`. -/
def float_overflow : ℚ := 340282356779733661637539395458142568448

/-- The conversion `std::stof` in exact arithmetic: the literal `strtof`
reads, with `std::out_of_range` when its magnitude is too large for `float`
(`strtof` then reports `ERANGE`).  Whether a magnitude too small for `float`
is reported is left to the implementation by the C standard; like the
rounding of the value it is not modelled, and the exact value is returned. -/
def stof (s : List Char) : Except ParseFault ℚ :=
  match strtof s with
  | .ok x => if float_overflow ≤ |x| then .error .out_of_range else .ok x
  | .error e => .error e

/-- The fixed-point form of a reading, `(int)(x * 10)` (line 400): ten times
the reading with the fractional part discarded, when that is in the range of
`int`; otherwise the cast has no defined result. -/
def fixed_point (x : ℚ) : Except ParseFault ℤ :=
  if int_range (truncated_tenths x) then .ok (truncated_tenths x)
  else .error .cast_out_of_range

/-- The loop of `parse_string_to_float` and `parse_string_to_int` (lines
311-327, 381-397): characters are skipped until five spaces have been
counted; every character after that is appended to `number_to_string`. -/
def number_to_string : ℕ → List Char → List Char
  | _, [] => []
  | delimiter_count, c :: rest =>
    if delimiter_count < 5 then
      if c = Char.ofNat 32 then number_to_string (delimiter_count + 1) rest
      else number_to_string delimiter_count rest
    else c :: number_to_string delimiter_count rest

/-- The function `parse_string_to_float` (lines 296-334). -/
def parse_string_to_float (line : String) : Except ParseFault ℚ :=
  stof (number_to_string 0 line.data)

/-- The function `parse_string_to_int` (lines 366-404): the same loop, then
`(int)(stof(number_to_string) * 10)`. -/
def parse_string_to_int (line : String) : Except ParseFault ℤ :=
  (stof (number_to_string 0 line.data)).bind fixed_point

/-- The loop `while (getline(ifs, line)) temperatures.push_back(parse(line))`
(lines 288-289, 358-359): one value per line, in order; the first line whose
parse yields no value ends the load. -/
def load_lines {α : Type} (parse : String → Except ParseFault α) :
    List String → Except ParseFault (List α)
  | [] => .ok []
  | line :: rest =>
    match parse line with
    | .error e => .error e
    | .ok v =>
      match load_lines parse rest with
      | .error e => .error e
      | .ok vs => .ok (v :: vs)

/-- The function `load_file_float` (lines 266-294): one value per line of the
file; a file that cannot be opened (`none`) gives the empty vector. -/
def load_file_float (file : Option (List String)) : Except ParseFault (List ℚ) :=
  match file with
  | none => .ok []
  | some lines => load_lines parse_string_to_float lines

/-- The function `load_file_int` (lines 336-364). -/
def load_file_int (file : Option (List String)) : Except ParseFault (List ℤ) :=
  match file with
  | none => .ok []
  | some lines => load_lines parse_string_to_int lines

/-! ## The padding step of `main` (lines 165-192) -/

/-- The two input vectors and the element count after the padding step. -/
structure PaddedInputs where
  air_temperatures : List ℚ
  air_temperatures_int : List ℤ
  input_elements : ℕ
  nr_groups : ℕ
deriving DecidableEq

/-- Lines 168-192 of `main`: `padding_size = air_temperatures.size() % local_size`;
when it is not zero, `local_size - padding_size` zeros are appended to the
floating vector and the same floating zeros, converted to `int`, to the
integer vector.  `input_elements` is the floating vector's size afterwards. -/
def pad_inputs (local_size : ℕ) (air_temperatures : List ℚ)
    (air_temperatures_int : List ℤ) : PaddedInputs :=
  let padding_size := air_temperatures.length % local_size
  if padding_size ≠ 0 then
    let air_temperatures_ext : List ℚ := List.replicate (local_size - padding_size) 0
    let padded := air_temperatures ++ air_temperatures_ext
    let padded_int := air_temperatures_int ++ air_temperatures_ext.map float_to_int
    { air_temperatures := padded
      air_temperatures_int := padded_int
      input_elements := padded.length
      nr_groups := padded.length / local_size }
  else
    { air_temperatures := air_temperatures
      air_temperatures_int := air_temperatures_int
      input_elements := air_temperatures.length
      nr_groups := air_temperatures.length / local_size }

/-! ## Device kernels of the floating pipeline

The kernel sources (`kernels.cl`) are loaded at run time by `AddSources`
and are described by their contract only. -/

/-- The output slot of a work-group.  The contract places a group's result
"at the group's starting offset", "the output slot at the group's base
index"; the host's test of index 1 reads the second group's result when the
slots are consecutive.  Both readings are carried: `group_offset` stores
group `g` at element `g * W`, `group_id` stores it at element `g`. -/
inductive SlotLayout
  | group_offset
  | group_id
deriving DecidableEq

/-- Index of the output element written by work-group `g`. -/
def SlotLayout.slot : SlotLayout → ℕ → ℕ → ℕ
  | .group_offset, local_size, g => g * local_size
  | .group_id, _, g => g

/-- A straightforward linear scan for the maximum. -/
def linear_max : List ℚ → ℚ
  | [] => 0
  | x :: xs => xs.foldl max x

/-- A straightforward linear scan for the minimum. -/
def linear_min : List ℚ → ℚ
  | [] => 0
  | x :: xs => xs.foldl min x

/-- A straightforward linear scan for the sum. -/
def linear_sum (xs : List ℚ) : ℚ := xs.foldl (· + ·) 0

/-- Sum of the squared deviations of the elements from `mean`. -/
def squared_deviation_sum (mean : ℚ) (xs : List ℚ) : ℚ :=
  xs.foldl (fun acc x => acc + (x - mean) * (x - mean)) 0

/-- The kernels `float_reduction` creates, by the name given to `cl::Kernel`;
the variance kernel carries its extra scalar argument. -/
inductive Kernel
  | reduction_max
  | reduction_min
  | reduction_sum
  | reduction_standard_deviation (mean : ℚ)
deriving DecidableEq

/-- Modelled from the spec: the body of the kernels in `kernels.cl`, which is
missing.  A work-group reduces its slice of `local_size` contiguous elements
to one partial result with the operator implied by the kernel name (max,
min, sum, sum of squared deviations from the mean). -/
def Kernel.group_result : Kernel → List ℚ → ℚ
  | .reduction_max, slice => linear_max slice
  | .reduction_min, slice => linear_min slice
  | .reduction_sum, slice => linear_sum slice
  | .reduction_standard_deviation mean, slice => squared_deviation_sum mean slice

/-- The slice of work-group `g`: `local_size` contiguous elements from
`g * local_size`. -/
def group_slice (local_size g : ℕ) (buffer : List ℚ) : List ℚ :=
  (buffer.drop (g * local_size)).take local_size

/-- Modelled from the spec: one launch of a tree-pipeline kernel over
`global_size` work-items in groups of `local_size` (the effect of
`enqueueNDRangeKernel` with the kernel of `kernels.cl`, which is missing).
Each of the `global_size / local_size` work-groups writes the reduction of
its slice of `input` to its slot of `output`; untouched slots keep their
value.  When `input` and `output` are the same buffer every group reads the
buffer as it stood before the launch. -/
def enqueueNDRangeKernel (layout : SlotLayout) (kernel : Kernel)
    (global_size local_size : ℕ) (input output : List ℚ) : List ℚ :=
  (List.range (global_size / local_size)).foldl
    (fun out g =>
      out.set (layout.slot local_size g) (kernel.group_result (group_slice local_size g input)))
    output

/-! ## The floating pipeline: `float_reduction` (lines 421-705) -/

/-- Ways a run leaves exact arithmetic or fails to finish. -/
inductive Fault
  /-- The convergence loop is still running when the fuel is spent. -/
  | out_of_fuel
  /-- A host vector is read past its end (undefined behaviour in the source). -/
  | out_of_range
  /-- A floating division by zero: the quotient is an infinity or a NaN. -/
  | non_numeric
deriving DecidableEq

/-- The convergence loop `while (!reduced)` of one statistic (lines 468-490,
536-558, 604-626, 674-696).  The loop stops when element 1 of the host copy
is `0`; otherwise `kernel` is launched with the output buffer as input and
output, the buffer is read back and `kernel_launches` is incremented.
The result is the host copy and the launch count when the loop stops. -/
def convergence_loop (layout : SlotLayout) (kernel : Kernel)
    (input_elements local_size : ℕ) :
    ℕ → List ℚ → ℕ → Except Fault (List ℚ × ℕ)
  | 0, _, _ => .error .out_of_fuel
  | fuel + 1, result, kernel_launches =>
    match result[1]? with
    | none => .error .out_of_range
    | some v =>
      if v = 0 then .ok (result, kernel_launches)
      else
        convergence_loop layout kernel input_elements local_size fuel
          (enqueueNDRangeKernel layout kernel input_elements local_size result result)
          (kernel_launches + 1)

/-- One statistic of `float_reduction`: the first launch of `first` from
`buffer_input` into `buffer_output`, the read-back, the convergence loop with
`next`, and the read of element 0 of the host copy.  `buffer_output` is the
content of the freshly created output buffer.  The result is element 0 and
`kernel_launches`. -/
def tree_reduction (layout : SlotLayout) (first next : Kernel)
    (input_elements local_size fuel : ℕ) (buffer_input buffer_output : List ℚ) :
    Except Fault (ℚ × ℕ) :=
  let result := enqueueNDRangeKernel layout first input_elements local_size buffer_input buffer_output
  match convergence_loop layout next input_elements local_size fuel result 1 with
  | .error e => .error e
  | .ok (final, kernel_launches) =>
    match final[0]? with
    | none => .error .out_of_range
    | some v => .ok (v, kernel_launches)

/-- Division of a floating value by the entry count (lines 629, 699):
a zero count gives no number. -/
def divide_by_entries (x : ℚ) (number_of_data_entries : ℕ) : Except Fault ℚ :=
  if number_of_data_entries = 0 then .error .non_numeric
  else .ok (x / (number_of_data_entries : ℚ))

/-- What `float_reduction` reports. -/
structure FloatStatistics where
  max_temperature : ℚ
  min_temperature : ℚ
  sum_result : ℚ
  mean_float : ℚ
  std_dev_result : ℚ
  variance_float : ℚ
deriving DecidableEq

/-- Contents of the output buffers of `float_reduction` when they are
created.  Only the max buffer is filled by the source
(`enqueueFillBuffer`, line 435): it has no field here. -/
structure FreshBuffers where
  buffer_output_redux_min : List ℚ
  buffer_output_redux_sum : List ℚ
  buffer_output_redux_std_dev : List ℚ

/-- The run of `float_reduction`: max, min, sum and mean, then the squared
deviations with `mean_float` as kernel argument, whose loop launches
`kernel_redux_sum` (line 685), and the variance.  `number_of_data_entries`
is the global set in `main` before the padding. -/
def float_reduction (layout : SlotLayout) (fuel number_of_data_entries : ℕ)
    (fresh : FreshBuffers) (input_elements : ℕ) (buffer_input : List ℚ) (local_size : ℕ) :
    Except Fault FloatStatistics := do
  let buffer_output_redux_max : List ℚ := List.replicate input_elements 0
  let (max_temperature, _) ←
    tree_reduction layout .reduction_max .reduction_max input_elements local_size fuel
      buffer_input buffer_output_redux_max
  let (min_temperature, _) ←
    tree_reduction layout .reduction_min .reduction_min input_elements local_size fuel
      buffer_input fresh.buffer_output_redux_min
  let (sum_result, _) ←
    tree_reduction layout .reduction_sum .reduction_sum input_elements local_size fuel
      buffer_input fresh.buffer_output_redux_sum
  let mean_float ← divide_by_entries sum_result number_of_data_entries
  let (std_dev_result, _) ←
    tree_reduction layout (.reduction_standard_deviation mean_float) .reduction_sum
      input_elements local_size fuel buffer_input fresh.buffer_output_redux_std_dev
  let variance_float ← divide_by_entries std_dev_result number_of_data_entries
  pure
    { max_temperature := max_temperature
      min_temperature := min_temperature
      sum_result := sum_result
      mean_float := mean_float
      std_dev_result := std_dev_result
      variance_float := variance_float }

/-- The call `floating_point_kernel_calls` (lines 409-419): the padded
vector is written to a new input buffer and `float_reduction` runs on it. -/
def floating_point_kernel_calls (layout : SlotLayout) (fuel number_of_data_entries : ℕ)
    (fresh : FreshBuffers) (input_elements : ℕ) (air_temperatures : List ℚ) (local_size : ℕ) :
    Except Fault FloatStatistics :=
  let buffer_input := air_temperatures
  float_reduction layout fuel number_of_data_entries fresh input_elements buffer_input local_size

/-- The floating pipeline as `main` drives it (lines 131-132, 165-205):
`number_of_data_entries` is taken before the padding, then the inputs are
padded and the floating kernels are called on the padded vector. -/
def main_float_pipeline (layout : SlotLayout) (fuel local_size : ℕ) (fresh : FreshBuffers)
    (air_temperatures : List ℚ) (air_temperatures_int : List ℤ) :
    Except Fault FloatStatistics :=
  let number_of_data_entries := air_temperatures.length
  let padded := pad_inputs local_size air_temperatures air_temperatures_int
  floating_point_kernel_calls layout fuel number_of_data_entries fresh
    padded.input_elements padded.air_temperatures local_size

/-- Fresh output buffers of `n` elements that happen to hold zeros. -/
def zeroed_buffers (n : ℕ) : FreshBuffers :=
  { buffer_output_redux_min := List.replicate n 0
    buffer_output_redux_sum := List.replicate n 0
    buffer_output_redux_std_dev := List.replicate n 0 }

/-- The variance of the readings about their arithmetic mean, by linear scans. -/
def linear_variance (xs : List ℚ) : ℚ :=
  squared_deviation_sum (linear_sum xs / (xs.length : ℚ)) xs / (xs.length : ℚ)

/-! ## The integer pipeline: `integer_reduction` (lines 722-878) -/

/-- A value brought into the range of a 32-bit `int` (two's complement). -/
def wrap_int (x : ℤ) : ℤ := (x + 2 ^ 31) % 2 ^ 32 - 2 ^ 31

/-- A straightforward linear scan for the maximum of integers. -/
def linear_max_int : List ℤ → ℤ
  | [] => 0
  | x :: xs => xs.foldl max x

/-- A straightforward linear scan for the minimum of integers. -/
def linear_min_int : List ℤ → ℤ
  | [] => 0
  | x :: xs => xs.foldl min x

/-- A straightforward linear scan for the sum of integers. -/
def linear_sum_int (xs : List ℤ) : ℤ := xs.foldl (· + ·) 0

/-- The kernels `integer_reduction` creates, by the name given to
`cl::Kernel`; the variance kernel carries its extra scalar argument. -/
inductive AtomicKernel
  | reduction_max_int
  | reduction_min_int
  | reduction_sum_int
  | reduction_standard_deviation_int (mean : ℤ)
deriving DecidableEq

/-- Modelled from the spec: the atomic combine of the integer kernels in
`kernels.cl`, which is missing.  A work-item combines its value into the
single global output slot with the operator implied by the kernel name
(max, min, sum, sum of squared deviations from the mean); sums wrap in the
range of `int`. -/
def AtomicKernel.combine : AtomicKernel → ℤ → ℤ → ℤ
  | .reduction_max_int, slot, v => max slot v
  | .reduction_min_int, slot, v => min slot v
  | .reduction_sum_int, slot, v => wrap_int (slot + v)
  | .reduction_standard_deviation_int mean, slot, v =>
    wrap_int (slot + wrap_int (wrap_int (v - mean) * wrap_int (v - mean)))

/-- Modelled from the spec: one launch of an atomic-pipeline kernel over
`global_size` work-items (the effect of `enqueueNDRangeKernel` with the
kernel of `kernels.cl`, which is missing).  Every work-item atomically
combines its input element into element 0 of `output`; the other elements
of `output` keep their value. -/
def enqueueNDRangeKernel_atomic (kernel : AtomicKernel) (global_size : ℕ)
    (input output : List ℤ) : List ℤ :=
  match output with
  | [] => []
  | slot :: rest => (input.take global_size).foldl kernel.combine slot :: rest

/-- One statistic of `integer_reduction`: a single launch from
`buffer_input` into `buffer_output`, the read-back, and the read of element 0
of the host copy. -/
def atomic_reduction (kernel : AtomicKernel) (input_elements : ℕ)
    (buffer_input buffer_output : List ℤ) : Except Fault ℤ :=
  match (enqueueNDRangeKernel_atomic kernel input_elements buffer_input buffer_output)[0]? with
  | none => .error .out_of_range
  | some v => .ok v

/-- Decoding of a fixed-point result for the report (lines 764, 800, 834):
`(float)result / 10.0f`. -/
def decode_tenths (v : ℤ) : ℚ := (v : ℚ) / 10

/-- What `integer_reduction` reads back and reports. -/
structure IntegerStatistics where
  max_result : ℤ
  min_result : ℤ
  sum_result : ℤ
  max_temperature : ℚ
  min_temperature : ℚ
  mean_float : ℚ
  mean_int : ℤ
  std_dev_result : ℤ
  variance_float : ℚ
deriving DecidableEq

/-- Contents of the integer output buffers when they are created.  Only the
max buffer is filled by the source (`enqueueFillBuffer`, line 736). -/
structure FreshIntBuffers where
  buffer_output_redux_min : List ℤ
  buffer_output_redux_sum : List ℤ
  buffer_output_redux_std_dev : List ℤ

/-- The run of `integer_reduction`: one launch each for max, min and sum,
the mean `(sum / 10.0f) / number_of_data_entries` and its fixed-point form
`(int)(mean_float * 10.0f)`, one launch of the variance kernel with that
`mean_int`, and the variance. -/
def integer_reduction (number_of_data_entries : ℕ) (fresh : FreshIntBuffers)
    (input_elements : ℕ) (buffer_input : List ℤ) : Except Fault IntegerStatistics := do
  let buffer_output_redux_max : List ℤ := List.replicate input_elements 0
  let max_result ←
    atomic_reduction .reduction_max_int input_elements buffer_input buffer_output_redux_max
  let min_result ←
    atomic_reduction .reduction_min_int input_elements buffer_input fresh.buffer_output_redux_min
  let sum_result ←
    atomic_reduction .reduction_sum_int input_elements buffer_input fresh.buffer_output_redux_sum
  let mean_float ← divide_by_entries (decode_tenths sum_result) number_of_data_entries
  let mean_int := float_to_int (mean_float * 10)
  let std_dev_result ←
    atomic_reduction (.reduction_standard_deviation_int mean_int) input_elements buffer_input
      fresh.buffer_output_redux_std_dev
  let variance_float ← divide_by_entries (decode_tenths std_dev_result) number_of_data_entries
  pure
    { max_result := max_result
      min_result := min_result
      sum_result := sum_result
      max_temperature := decode_tenths max_result
      min_temperature := decode_tenths min_result
      mean_float := mean_float
      mean_int := mean_int
      std_dev_result := std_dev_result
      variance_float := variance_float }

/-- The call `integer_kernel_calls` (lines 709-720): the padded vector is
written to a new input buffer and `integer_reduction` runs on it. -/
def integer_kernel_calls (number_of_data_entries : ℕ) (fresh : FreshIntBuffers)
    (input_elements : ℕ) (air_temperatures : List ℤ) : Except Fault IntegerStatistics :=
  let buffer_input := air_temperatures
  integer_reduction number_of_data_entries fresh input_elements buffer_input

/-- The integer pipeline as `main` drives it (lines 131-132, 165-217). -/
def main_integer_pipeline (local_size : ℕ) (fresh : FreshIntBuffers)
    (air_temperatures : List ℚ) (air_temperatures_int : List ℤ) :
    Except Fault IntegerStatistics :=
  let number_of_data_entries := air_temperatures.length
  let padded := pad_inputs local_size air_temperatures air_temperatures_int
  integer_kernel_calls number_of_data_entries fresh padded.input_elements
    padded.air_temperatures_int

/-- Fresh integer output buffers of `n` elements that happen to hold zeros. -/
def zeroed_int_buffers (n : ℕ) : FreshIntBuffers :=
  { buffer_output_redux_min := List.replicate n 0
    buffer_output_redux_sum := List.replicate n 0
    buffer_output_redux_std_dev := List.replicate n 0 }

/-! ## The run of `main` (lines 116-249) -/

/-- How a run of `main` ends without a report. -/
inductive RunError
  /-- A `cl::Error` thrown by the call named `what`; `main` catches it
  (line 245), prints `ERROR: ` with it and returns. -/
  | cl_error (what : String)
  /-- The load met a line without a value of exact arithmetic.
  `std::invalid_argument` and `std::out_of_range` are not caught by `main`,
  which ends there; with the other faults the run leaves the model. -/
  | load (fault : ParseFault)
  /-- A reduction left exact arithmetic or did not finish. -/
  | reduction (fault : Fault)
deriving DecidableEq

/-- The behaviour of the OpenCL platform a run meets: whether the context,
the queue and the program build succeed, whether device memory of a size in
bytes is available, where the kernels store group results, what fresh output
buffers of a given element count hold, and the passes allowed to a loop. -/
structure Platform where
  context_ok : Bool
  queue_ok : Bool
  build_ok : Bool
  memory_available : ℕ → Bool
  layout : SlotLayout
  fresh : ℕ → FreshBuffers
  fresh_int : ℕ → FreshIntBuffers
  fuel : ℕ

/-- A platform call that throws `cl::Error` when it does not succeed
(`__CL_ENABLE_EXCEPTIONS`, line 2). -/
def cl_call (what : String) (ok : Bool) : Except RunError Unit :=
  if ok then .ok () else .error (.cl_error what)

/-- The constructor `cl::Buffer(context, flags, size)`: OpenCL's
`clCreateBuffer` returns `CL_INVALID_BUFFER_SIZE` for a size of 0 bytes, and
with `__CL_ENABLE_EXCEPTIONS` (line 2) the constructor throws `cl::Error`;
for other sizes it fails when the platform has no memory for it. -/
def cl_Buffer (platform : Platform) (size : ℕ) : Except RunError Unit :=
  if size = 0 then .error (.cl_error "clCreateBuffer")
  else cl_call "clCreateBuffer" (platform.memory_available size)

/-- Size in bytes of `floating_point` and of `integer`. -/
def sizeof_element : ℕ := 4

/-- What a finished run of `main` reports. -/
structure Report where
  number_of_data_entries : ℕ
  local_size : ℕ
  floats : FloatStatistics
  integers : IntegerStatistics
deriving DecidableEq

/-- The run of `main` inside its `try` block (lines 116-242): both loads,
`number_of_data_entries`, context, queue and program build, the padding with
`local_size = 128`, the two input buffers, then the floating and the integer
kernel calls, each creating its own input buffer first.  Platform failures
inside the reductions are not part of this model, and neither is a run on a
non-finite reading or on a reading whose cast to `int` is not defined: the
load ends with the fault where the model stops following. -/
def main (platform : Platform) (file : Option (List String)) : Except RunError Report := do
  let air_temperatures ← (load_file_float file).mapError RunError.load
  let air_temperatures_int ← (load_file_int file).mapError RunError.load
  let number_of_data_entries := air_temperatures.length
  cl_call "GetContext" platform.context_ok
  cl_call "clCreateCommandQueue" platform.queue_ok
  cl_call "clBuildProgram" platform.build_ok
  let local_size := 128
  let padded := pad_inputs local_size air_temperatures air_temperatures_int
  let input_elements := padded.input_elements
  let input_size_float := padded.air_temperatures.length * sizeof_element
  let input_size_int := padded.air_temperatures_int.length * sizeof_element
  cl_Buffer platform input_size_float
  cl_Buffer platform input_size_int
  cl_Buffer platform input_size_float
  let floats ←
    (floating_point_kernel_calls platform.layout platform.fuel number_of_data_entries
      (platform.fresh input_elements) input_elements padded.air_temperatures
      local_size).mapError RunError.reduction
  cl_Buffer platform input_size_int
  let integers ←
    (integer_kernel_calls number_of_data_entries (platform.fresh_int input_elements)
      input_elements padded.air_temperatures_int).mapError RunError.reduction
  pure
    { number_of_data_entries := number_of_data_entries
      local_size := local_size
      floats := floats
      integers := integers }

/-! ## Reference notions for the claims -/

/-- Output buffers of `n` elements whose memory holds `v` everywhere when
they are created. -/
def stale_buffers (n : ℕ) (v : ℚ) : FreshBuffers :=
  { buffer_output_redux_min := List.replicate n v
    buffer_output_redux_sum := List.replicate n v
    buffer_output_redux_std_dev := List.replicate n v }

/-- Integer output buffers of `n` elements whose memory holds `v` everywhere
when they are created. -/
def stale_int_buffers (n : ℕ) (v : ℤ) : FreshIntBuffers :=
  { buffer_output_redux_min := List.replicate n v
    buffer_output_redux_sum := List.replicate n v
    buffer_output_redux_std_dev := List.replicate n v }

/-- Splitting of a text at white space: `current` is the field being read,
a white-space character ends it, and empty fields are dropped. -/
def fields_loop : List Char → List Char → List (List Char)
  | current, [] => if current = [] then [] else [current]
  | current, c :: rest =>
    if is_space c then
      if current = [] then fields_loop [] rest else current :: fields_loop [] rest
    else fields_loop (current ++ [c]) rest

/-- The whitespace-separated fields of a line, in order. -/
def whitespace_fields (line : List Char) : List (List Char) :=
  fields_loop [] line

/-- The field is written with the characters of a decimal numeral only:
digits, a sign, a point, an exponent letter.  A field with any other
character is not numeric. -/
def only_numeral_characters (field : List Char) : Bool :=
  field.all fun c =>
    (digit_value 10 c).isSome || c = '+' || c = '-' || c = '.' || c = 'e' || c = 'E'

/-- Every element of the buffer from index `n` on is zero. -/
def zero_from (n : ℕ) (buf : List ℚ) : Prop :=
  ∀ i v, n ≤ i → buf[i]? = some v → v = 0

/-- The kernel reduces a slice of zeros to zero. -/
def keeps_zero (kernel : Kernel) : Prop :=
  ∀ slice : List ℚ, (∀ x ∈ slice, x = 0) → kernel.group_result slice = 0

/-! ## The runs with their device operations recorded -/

/-- The stages of a pipeline, in the order of the regions of
`float_reduction` and `integer_reduction`. -/
inductive Stage
  | max
  | min
  | sum
  | mean
  | variance
  | stddev
deriving DecidableEq

/-- What a pipeline does, as seen from the host, for kernels of type `κ`. -/
inductive Event (κ : Type)
  /-- A call `enqueueNDRangeKernel` of `kernel`; `in_place` when the kernel's
  input argument is the stage's output buffer. -/
  | launch (stage : Stage) (kernel : κ) (in_place : Bool)
  /-- A call `enqueueReadBuffer` of the stage's output buffer into its host vector. -/
  | read_back (stage : Stage)
  /-- The division of `dividend` by `number_of_data_entries`. -/
  | divide (stage : Stage) (dividend : ℚ)
  /-- The call `sqrt(variance_float)` for the report. -/
  | square_root (radicand : ℚ)
deriving DecidableEq

/-- The stage an event belongs to. -/
def Event.stage {κ : Type} : Event κ → Stage
  | .launch stage _ _ => stage
  | .read_back stage => stage
  | .divide stage _ => stage
  | .square_root _ => .stddev

/-- The stages in the order they are entered: a list of stages with
immediate repetitions removed. -/
def stage_sequence : List Stage → List Stage
  | [] => []
  | [s] => [s]
  | s :: t :: rest =>
    if s = t then stage_sequence (t :: rest) else s :: stage_sequence (t :: rest)

/-- The events of `n` passes of a convergence loop: each an in-place launch
of `kernel` followed by a read-back. -/
def loop_events (stage : Stage) (kernel : Kernel) : ℕ → List (Event Kernel)
  | 0 => []
  | n + 1 => .launch stage kernel true :: .read_back stage :: loop_events stage kernel n

/-- The convergence loop of `convergence_loop` with its launches and
read-backs recorded (lines 479-482, 547-550, 615-618, 685-688). -/
def convergence_loop_log (layout : SlotLayout) (stage : Stage) (kernel : Kernel)
    (input_elements local_size : ℕ) :
    ℕ → List ℚ → ℕ → Except Fault (List ℚ × ℕ × List (Event Kernel))
  | 0, _, _ => .error .out_of_fuel
  | fuel + 1, result, kernel_launches =>
    match result[1]? with
    | none => .error .out_of_range
    | some v =>
      if v = 0 then .ok (result, kernel_launches, [])
      else
        match convergence_loop_log layout stage kernel input_elements local_size fuel
            (enqueueNDRangeKernel layout kernel input_elements local_size result result)
            (kernel_launches + 1) with
        | .error e => .error e
        | .ok (final, launches, events) =>
          .ok (final, launches, .launch stage kernel true :: .read_back stage :: events)

/-- The outcome of one statistic of `float_reduction`: element 0 of the last
host copy, the launch count, the last host copy and the events in order. -/
structure StageRun where
  value : ℚ
  kernel_launches : ℕ
  host_copy : List ℚ
  events : List (Event Kernel)

/-- One statistic of `float_reduction` as in `tree_reduction`, with the first
launch (lines 457, 525, 593, 663), its read-back and the events of the loop
recorded. -/
def tree_reduction_log (layout : SlotLayout) (stage : Stage) (first next : Kernel)
    (input_elements local_size fuel : ℕ) (buffer_input buffer_output : List ℚ) :
    Except Fault StageRun :=
  let result := enqueueNDRangeKernel layout first input_elements local_size buffer_input buffer_output
  match convergence_loop_log layout stage next input_elements local_size fuel result 1 with
  | .error e => .error e
  | .ok (final, kernel_launches, events) =>
    match final[0]? with
    | none => .error .out_of_range
    | some v =>
      .ok
        { value := v
          kernel_launches := kernel_launches
          host_copy := final
          events := .launch stage first false :: .read_back stage :: events }

/-- The run of `float_reduction` with its events recorded in program order:
the three reductions, the division for the mean (line 629), the variance
reduction, the division for the variance (line 699) and the square root of
the report (line 702). -/
def float_reduction_log (layout : SlotLayout) (fuel number_of_data_entries : ℕ)
    (fresh : FreshBuffers) (input_elements : ℕ) (buffer_input : List ℚ) (local_size : ℕ) :
    Except Fault (FloatStatistics × List (Event Kernel)) := do
  let buffer_output_redux_max : List ℚ := List.replicate input_elements 0
  let run_max ←
    tree_reduction_log layout .max .reduction_max .reduction_max input_elements local_size fuel
      buffer_input buffer_output_redux_max
  let run_min ←
    tree_reduction_log layout .min .reduction_min .reduction_min input_elements local_size fuel
      buffer_input fresh.buffer_output_redux_min
  let run_sum ←
    tree_reduction_log layout .sum .reduction_sum .reduction_sum input_elements local_size fuel
      buffer_input fresh.buffer_output_redux_sum
  let mean_float ← divide_by_entries run_sum.value number_of_data_entries
  let run_std_dev ←
    tree_reduction_log layout .variance (.reduction_standard_deviation mean_float) .reduction_sum
      input_elements local_size fuel buffer_input fresh.buffer_output_redux_std_dev
  let variance_float ← divide_by_entries run_std_dev.value number_of_data_entries
  pure
    ({ max_temperature := run_max.value
       min_temperature := run_min.value
       sum_result := run_sum.value
       mean_float := mean_float
       std_dev_result := run_std_dev.value
       variance_float := variance_float },
      run_max.events ++ run_min.events ++ run_sum.events ++ [.divide .mean run_sum.value]
        ++ run_std_dev.events
        ++ [.divide .variance run_std_dev.value, .square_root variance_float])

/-- The events of one statistic of `integer_reduction`: a single launch and
its read-back. -/
def atomic_events (stage : Stage) (kernel : AtomicKernel) : List (Event AtomicKernel) :=
  [.launch stage kernel false, .read_back stage]

/-- The run of `integer_reduction` with its events recorded in program
order: the three single launches, the division for the mean (line 834, on
the decoded sum), the launch of the variance kernel with `mean_int`, the
division for the variance (line 872) and the square root of the report
(line 875). -/
def integer_reduction_log (number_of_data_entries : ℕ) (fresh : FreshIntBuffers)
    (input_elements : ℕ) (buffer_input : List ℤ) :
    Except Fault (IntegerStatistics × List (Event AtomicKernel)) := do
  let buffer_output_redux_max : List ℤ := List.replicate input_elements 0
  let max_result ←
    atomic_reduction .reduction_max_int input_elements buffer_input buffer_output_redux_max
  let min_result ←
    atomic_reduction .reduction_min_int input_elements buffer_input fresh.buffer_output_redux_min
  let sum_result ←
    atomic_reduction .reduction_sum_int input_elements buffer_input fresh.buffer_output_redux_sum
  let mean_float ← divide_by_entries (decode_tenths sum_result) number_of_data_entries
  let mean_int := float_to_int (mean_float * 10)
  let std_dev_result ←
    atomic_reduction (.reduction_standard_deviation_int mean_int) input_elements buffer_input
      fresh.buffer_output_redux_std_dev
  let variance_float ← divide_by_entries (decode_tenths std_dev_result) number_of_data_entries
  pure
    ({ max_result := max_result
       min_result := min_result
       sum_result := sum_result
       max_temperature := decode_tenths max_result
       min_temperature := decode_tenths min_result
       mean_float := mean_float
       mean_int := mean_int
       std_dev_result := std_dev_result
       variance_float := variance_float },
      atomic_events .max .reduction_max_int ++ atomic_events .min .reduction_min_int
        ++ atomic_events .sum .reduction_sum_int
        ++ [.divide .mean (decode_tenths sum_result)]
        ++ atomic_events .variance (.reduction_standard_deviation_int mean_int)
        ++ [.divide .variance (decode_tenths std_dev_result), .square_root variance_float])

/-- The per-group partial results of the first variance launch, added up:
the squared deviations from `mean` of every work-group slice. -/
def first_pass_partial_sum (mean : ℚ) (local_size groups : ℕ) (buffer_input : List ℚ) : ℚ :=
  ((List.range groups).map fun g =>
    squared_deviation_sum mean (group_slice local_size g buffer_input)).foldl (· + ·) 0

/-- Number of filler elements the padding is specified to add. -/
def filler_count (W N : ℕ) : ℕ := (W - N % W) % W

/-! ## Facts about the padding step -/

theorem float_to_int_zero : float_to_int 0 = 0 := by
  simp [float_to_int]

theorem filler_count_of_rem_ne {W N : ℕ} (h : N % W ≠ 0) :
    filler_count W N = W - N % W := by
  unfold filler_count
  rcases Nat.eq_zero_or_pos W with hW | hW
  · subst hW
    simp
  · apply Nat.mod_eq_of_lt
    have hpos : 0 < N % W := Nat.pos_of_ne_zero h
    omega

theorem filler_count_of_rem_eq {W N : ℕ} (h : N % W = 0) :
    filler_count W N = 0 := by
  unfold filler_count
  simp [h]

theorem pad_inputs_air_temperatures (W : ℕ) (xs : List ℚ) (ys : List ℤ) :
    (pad_inputs W xs ys).air_temperatures
      = xs ++ List.replicate (filler_count W xs.length) 0 := by
  unfold pad_inputs
  by_cases h : xs.length % W = 0
  · simp [h, filler_count_of_rem_eq h]
  · simp [h, filler_count_of_rem_ne h]

theorem pad_inputs_air_temperatures_int (W : ℕ) (xs : List ℚ) (ys : List ℤ) :
    (pad_inputs W xs ys).air_temperatures_int
      = ys ++ List.replicate (filler_count W xs.length) 0 := by
  unfold pad_inputs
  by_cases h : xs.length % W = 0
  · simp [h, filler_count_of_rem_eq h]
  · simp [h, filler_count_of_rem_ne h, float_to_int_zero]

theorem pad_inputs_input_elements (W : ℕ) (xs : List ℚ) (ys : List ℤ) :
    (pad_inputs W xs ys).input_elements = xs.length + filler_count W xs.length := by
  unfold pad_inputs
  by_cases h : xs.length % W = 0
  · simp [h, filler_count_of_rem_eq h]
  · simp [h, filler_count_of_rem_ne h]

theorem pad_inputs_length (W : ℕ) (xs : List ℚ) (ys : List ℤ) :
    (pad_inputs W xs ys).air_temperatures.length = (pad_inputs W xs ys).input_elements := by
  rw [pad_inputs_air_temperatures, pad_inputs_input_elements]
  simp

theorem padded_length_dvd {W : ℕ} (hW : 0 < W) (N : ℕ) :
    W ∣ N + filler_count W N := by
  by_cases h : N % W = 0
  · rw [filler_count_of_rem_eq h]
    exact Nat.dvd_of_mod_eq_zero h
  · rw [filler_count_of_rem_ne h]
    have hlt : N % W < W := Nat.mod_lt _ hW
    have hdiv : N = W * (N / W) + N % W := (Nat.div_add_mod N W).symm
    refine ⟨N / W + 1, ?_⟩
    rw [Nat.mul_add, Nat.mul_one]
    omega

theorem padded_length_least {W : ℕ} (hW : 0 < W) (N m : ℕ) (hm : W ∣ m) (hN : N ≤ m) :
    N + filler_count W N ≤ m := by
  by_cases h : N % W = 0
  · rw [filler_count_of_rem_eq h]
    exact hN
  · rw [filler_count_of_rem_ne h]
    obtain ⟨k, rfl⟩ := hm
    have hlt : N % W < W := Nat.mod_lt _ hW
    have hdiv : N = W * (N / W) + N % W := (Nat.div_add_mod N W).symm
    have hk : N / W < k := by
      by_contra hcon
      have hle : k ≤ N / W := Nat.le_of_not_lt hcon
      have : W * k ≤ W * (N / W) := Nat.mul_le_mul_left W hle
      have hpos : 0 < N % W := Nat.pos_of_ne_zero h
      omega
    have : W * (N / W + 1) ≤ W * k := Nat.mul_le_mul_left W hk
    rw [Nat.mul_add, Nat.mul_one] at this
    omega

/-! ## Claims about the padding step -/

/-- C1: for every dataset length `N` and work-group size `W > 0`, the padding
step of `main` yields a sequence whose length `input_elements` is a multiple
of `W`, is at least `N`, and is below every other multiple of `W` that is at
least `N`; it is `N` plus `(W - N mod W) mod W` filler elements. -/
theorem C1_padded_length_smallest_multiple (W : ℕ) (hW : 0 < W)
    (xs : List ℚ) (ys : List ℤ) :
    (pad_inputs W xs ys).air_temperatures.length = (pad_inputs W xs ys).input_elements
    ∧ W ∣ (pad_inputs W xs ys).input_elements
    ∧ xs.length ≤ (pad_inputs W xs ys).input_elements
    ∧ (∀ m, W ∣ m → xs.length ≤ m → (pad_inputs W xs ys).input_elements ≤ m)
    ∧ (pad_inputs W xs ys).input_elements = xs.length + (W - xs.length % W) % W := by
  refine ⟨pad_inputs_length W xs ys, ?_, ?_, ?_, ?_⟩
  · rw [pad_inputs_input_elements]
    exact padded_length_dvd hW _
  · rw [pad_inputs_input_elements]
    exact Nat.le_add_right _ _
  · intro m hm hN
    rw [pad_inputs_input_elements]
    exact padded_length_least hW _ m hm hN
  · rw [pad_inputs_input_elements]
    rfl

/-- Witness for C1: three readings and groups of four give four elements. -/
theorem C1_padded_length_smallest_multiple_witness :
    (0 < 4) ∧ (pad_inputs 4 [55/10, -32/10, 81/10] [55, -32, 81]).input_elements = 3 + (4 - 3 % 4) % 4 :=
  ⟨by decide,
    (C1_padded_length_smallest_multiple 4 (by decide) [55/10, -32/10, 81/10] [55, -32, 81]).2.2.2.2⟩

/-- C2: for every dataset and `W > 0`, the padded floating sequence and the
padded integer sequence are the original sequence followed only by zeros:
each original element keeps its value at its index and each appended element
is `0`. -/
theorem C2_padding_appends_only_zeros (W : ℕ) (hW : 0 < W)
    (xs : List ℚ) (ys : List ℤ) :
    (pad_inputs W xs ys).air_temperatures
        = xs ++ List.replicate ((W - xs.length % W) % W) 0
    ∧ (pad_inputs W xs ys).air_temperatures_int
        = ys ++ List.replicate ((W - xs.length % W) % W) 0
    ∧ (∀ i, i < xs.length → (pad_inputs W xs ys).air_temperatures[i]? = xs[i]?)
    ∧ (∀ i, i < ys.length → (pad_inputs W xs ys).air_temperatures_int[i]? = ys[i]?)
    ∧ (∀ i v, xs.length ≤ i → (pad_inputs W xs ys).air_temperatures[i]? = some v → v = 0)
    ∧ (∀ i v, ys.length ≤ i → (pad_inputs W xs ys).air_temperatures_int[i]? = some v → v = 0) := by
  have _ := hW
  have hx := pad_inputs_air_temperatures W xs ys
  have hy := pad_inputs_air_temperatures_int W xs ys
  unfold filler_count at hx hy
  refine ⟨hx, hy, ?_, ?_, ?_, ?_⟩
  · intro i hi
    rw [hx, List.getElem?_append_left hi]
  · intro i hi
    rw [hy, List.getElem?_append_left hi]
  · intro i v hi hv
    rw [hx, List.getElem?_append_right hi] at hv
    have := List.getElem?_mem hv
    exact (List.eq_of_mem_replicate this)
  · intro i v hi hv
    rw [hy, List.getElem?_append_right hi] at hv
    have := List.getElem?_mem hv
    exact (List.eq_of_mem_replicate this)

/-- Witness for C2: three readings and groups of four. -/
theorem C2_padding_appends_only_zeros_witness :
    (0 < 4) ∧ (pad_inputs 4 [55/10, -32/10, 81/10] [55, -32, 81]).air_temperatures_int
      = [55, -32, 81] ++ List.replicate ((4 - [55/10, -32/10, (81:ℚ)/10].length % 4) % 4) 0 :=
  ⟨by decide,
    (C2_padding_appends_only_zeros 4 (by decide) [55/10, -32/10, 81/10] [55, -32, 81]).2.1⟩

/-! ## Facts about the floating pipeline -/

theorem divide_by_entries_ok {x q : ℚ} {n : ℕ} (h : divide_by_entries x n = .ok q) :
    n ≠ 0 ∧ q = x / (n : ℚ) := by
  unfold divide_by_entries at h
  split at h
  · cases h
  · rename_i hn
    injection h with h
    exact ⟨hn, h.symm⟩

/-- A finished run of `float_reduction` read backwards: the sum it reports
is what the sum loop converged to, the mean is that sum over the entry
count, the squared deviations were taken about that mean, and the variance
is their converged sum over the entry count. -/
theorem float_reduction_ok {layout : SlotLayout} {fuel N L W : ℕ} {fresh : FreshBuffers}
    {input : List ℚ} {r : FloatStatistics}
    (h : float_reduction layout fuel N fresh L input W = .ok r) :
    (∃ k, tree_reduction layout .reduction_sum .reduction_sum L W fuel input
        fresh.buffer_output_redux_sum = .ok (r.sum_result, k))
    ∧ divide_by_entries r.sum_result N = .ok r.mean_float
    ∧ (∃ k, tree_reduction layout (.reduction_standard_deviation r.mean_float) .reduction_sum
        L W fuel input fresh.buffer_output_redux_std_dev = .ok (r.std_dev_result, k))
    ∧ divide_by_entries r.std_dev_result N = .ok r.variance_float := by
  unfold float_reduction at h
  simp only [bind, Except.bind, pure, Except.pure] at h
  split at h
  · cases h
  · split at h
    · cases h
    · split at h
      · cases h
      · rename_i hsum
        split at h
        · cases h
        · rename_i hmean
          split at h
          · cases h
          · rename_i hstd
            split at h
            · cases h
            · rename_i hvar
              injection h with h
              subst h
              exact ⟨⟨_, hsum⟩, hmean, ⟨_, hstd⟩, hvar⟩

/-! ## Claims about the floating pipeline -/

/-- C3, evaluated on 384 readings (128 of 1.0, 128 of 0.0, 128 of 1.0) with
the work-group size 128 of `main` and zeroed output buffers: the second
work-group sums to 0, so under either slot layout element 1 of the sum
output is 0 after the first launch, the loop stops, and element 0 holds the
first group's 128 while the linear scan of the dataset gives 256. -/
theorem C3_sum_loop_stops_on_zero_partial :
    (∀ layout : SlotLayout,
      (main_float_pipeline layout 10 128 (zeroed_buffers 384)
        (List.replicate 128 1 ++ List.replicate 128 0 ++ List.replicate 128 1)
        (List.replicate 128 10 ++ List.replicate 128 0 ++ List.replicate 128 10)).map
          (fun r => r.sum_result) = .ok 128)
    ∧ linear_sum (List.replicate 128 1 ++ List.replicate 128 0 ++ List.replicate 128 1) = 256 := by
  refine ⟨?_, ?_⟩
  · intro layout
    cases layout <;> decide!
  · decide!

/-- C4, evaluated on two datasets of 256 readings (a multiple of the
work-group size 128, so nothing is appended) with zeroed output buffers.
All readings negative (128 of -2.0, 128 of -1.0): the linear maximum is -1,
but the reported maximum is 0 with consecutive slots (the second pass folds
the zeros of the output buffer in) and -2 with slots at the group offsets
(element 1 is 0 after the first launch).  All readings positive (128 of 2.0,
128 of 1.0): the linear minimum is 1, the reported minimum is 0 and 2. -/
theorem C4_max_min_wrong_without_padding :
    (256 % 128 = 0)
    ∧ linear_max (List.replicate 128 (-2) ++ List.replicate 128 (-1)) = -1
    ∧ (main_float_pipeline .group_id 10 128 (zeroed_buffers 256)
        (List.replicate 128 (-2) ++ List.replicate 128 (-1))
        (List.replicate 128 (-20) ++ List.replicate 128 (-10))).map
          (fun r => r.max_temperature) = .ok 0
    ∧ (main_float_pipeline .group_offset 10 128 (zeroed_buffers 256)
        (List.replicate 128 (-2) ++ List.replicate 128 (-1))
        (List.replicate 128 (-20) ++ List.replicate 128 (-10))).map
          (fun r => r.max_temperature) = .ok (-2)
    ∧ linear_min (List.replicate 128 2 ++ List.replicate 128 1) = 1
    ∧ (main_float_pipeline .group_id 10 128 (zeroed_buffers 256)
        (List.replicate 128 2 ++ List.replicate 128 1)
        (List.replicate 128 20 ++ List.replicate 128 10)).map
          (fun r => r.min_temperature) = .ok 0
    ∧ (main_float_pipeline .group_offset 10 128 (zeroed_buffers 256)
        (List.replicate 128 2 ++ List.replicate 128 1)
        (List.replicate 128 20 ++ List.replicate 128 10)).map
          (fun r => r.min_temperature) = .ok 2 := by
  refine ⟨by decide, ?_, ?_, ?_, ?_, ?_, ?_⟩ <;> decide!

/-- C5: for every non-empty dataset on which the floating pipeline finishes,
the reported mean is the value the sum loop converged to divided by the
number of entries before padding; when the sum is not zero and filler was
appended it differs from the sum divided by the padded length. -/
theorem C5_mean_divides_by_unpadded_count (layout : SlotLayout) (fuel W : ℕ)
    (fresh : FreshBuffers) (xs : List ℚ) (ys : List ℤ) (r : FloatStatistics)
    (hne : xs ≠ [])
    (hrun : main_float_pipeline layout fuel W fresh xs ys = .ok r) :
    r.mean_float = r.sum_result / (xs.length : ℚ)
    ∧ (∃ k, tree_reduction layout .reduction_sum .reduction_sum
        (pad_inputs W xs ys).input_elements W fuel (pad_inputs W xs ys).air_temperatures
        fresh.buffer_output_redux_sum = .ok (r.sum_result, k))
    ∧ (r.sum_result ≠ 0 → (pad_inputs W xs ys).input_elements ≠ xs.length →
        r.mean_float ≠ r.sum_result / ((pad_inputs W xs ys).input_elements : ℚ)) := by
  unfold main_float_pipeline floating_point_kernel_calls at hrun
  obtain ⟨hsum, hmean, _, _⟩ := float_reduction_ok hrun
  obtain ⟨_, hq⟩ := divide_by_entries_ok hmean
  have hlen : (xs.length : ℚ) ≠ 0 := by
    have : xs.length ≠ 0 := fun h0 => hne (List.length_eq_zero.mp h0)
    exact_mod_cast this
  refine ⟨hq, hsum, ?_⟩
  intro hs hL heq
  rw [hq] at heq
  have hL0 : (((pad_inputs W xs ys).input_elements : ℕ) : ℚ) ≠ 0 := by
    intro h0
    rw [h0, div_zero] at heq
    exact (div_ne_zero hs hlen) heq
  rw [div_eq_div_iff hlen hL0] at heq
  have := mul_left_cancel₀ hs heq
  exact hL (by exact_mod_cast this)

/-- Witness for C5: three readings in groups of four; the sum 52/5 is
divided by 3, not by the padded length 4. -/
theorem C5_mean_divides_by_unpadded_count_witness :
    (52 / 15 : ℚ) = (52 / 5) / (([55 / 10, -32 / 10, 81 / 10] : List ℚ).length : ℚ) :=
  (C5_mean_divides_by_unpadded_count .group_id 10 4 (zeroed_buffers 4)
    [55 / 10, -32 / 10, 81 / 10] [55, -32, 81]
    { max_temperature := 81 / 10
      min_temperature := -16 / 5
      sum_result := 52 / 5
      mean_float := 52 / 15
      std_dev_result := 36929 / 450
      variance_float := 36929 / 1350 }
    (by decide) (by decide!)).1

/-- C6, evaluated on a dataset of one reading 1.0 with the work-group size
128 of `main` and zeroed output buffers: 127 zeros are appended, the mean is
1, each filler element adds `(0 - 1)^2` to the squared deviations, and the
reported variance is 127 while the variance of the dataset is 0. -/
theorem C6_variance_counts_filler :
    (∀ layout : SlotLayout,
      main_float_pipeline layout 10 128 (zeroed_buffers 128) [1] [10]
        = .ok
          { max_temperature := 1
            min_temperature := 0
            sum_result := 1
            mean_float := 1
            std_dev_result := 127
            variance_float := 127 })
    ∧ linear_variance [1] = 0 := by
  refine ⟨?_, ?_⟩
  · intro layout
    cases layout <;> decide!
  · decide!

/-! ## Facts about the fixed-point conversion -/

theorem float_to_int_mono : Monotone float_to_int := by
  intro x y hxy
  unfold float_to_int
  by_cases hx : 0 ≤ x
  · have hy : 0 ≤ y := le_trans hx hxy
    simp only [hx, hy, if_true]
    exact Int.floor_mono hxy
  · by_cases hy : 0 ≤ y
    · simp only [hx, hy, if_true, if_false]
      have h1 : ⌈x⌉ ≤ 0 := Int.ceil_le.mpr (by push_cast; exact le_of_lt (not_le.mp hx))
      have h2 : 0 ≤ ⌊y⌋ := Int.floor_nonneg.mpr hy
      exact le_trans h1 h2
    · simp only [hx, hy, if_false]
      exact Int.ceil_mono hxy

/-- Truncation moves a value by less than one unit. -/
theorem float_to_int_close (y : ℚ) : |((float_to_int y : ℤ) : ℚ) - y| < 1 := by
  unfold float_to_int
  rw [abs_lt]
  by_cases hy : 0 ≤ y
  · simp only [hy, if_true]
    have h1 := Int.floor_le y
    have h2 := Int.lt_floor_add_one y
    constructor <;> linarith
  · simp only [hy, if_false]
    have h1 := Int.le_ceil y
    have h2 := Int.ceil_lt_add_one y
    constructor <;> linarith

/-- Truncation leaves an integer value unchanged. -/
theorem float_to_int_intCast (n : ℤ) : float_to_int (n : ℚ) = n := by
  unfold float_to_int
  split <;> simp

theorem truncated_tenths_mono : Monotone truncated_tenths := by
  intro x y hxy
  unfold truncated_tenths
  apply float_to_int_mono
  linarith

theorem truncated_tenths_close (x : ℚ) : |decode_tenths (truncated_tenths x) - x| < 1 / 10 := by
  have h := float_to_int_close (x * 10)
  unfold decode_tenths truncated_tenths
  rw [abs_lt] at h ⊢
  constructor <;> linarith [h.1, h.2]

theorem int_range_iff (v : ℤ) :
    int_range v = true ↔ -2147483648 ≤ v ∧ v ≤ 2147483647 := by
  simp [int_range]

/-- The cast of a reading yields a value exactly when ten times the reading,
truncated, is in the range of `int`, and then it is that value. -/
theorem fixed_point_ok_iff (x : ℚ) (v : ℤ) :
    fixed_point x = .ok v ↔ v = truncated_tenths x ∧ int_range v = true := by
  unfold fixed_point
  by_cases h : int_range (truncated_tenths x) = true
  · simp only [h, if_true]
    constructor
    · intro hv
      injection hv with hv
      subst hv
      exact ⟨rfl, h⟩
    · rintro ⟨hv, _⟩
      rw [hv]
  · simp only [h, Bool.false_eq_true, if_false]
    constructor
    · intro hv
      cases hv
    · rintro ⟨hv, hr⟩
      rw [hv] at hr
      exact absurd hr h

theorem fixed_point_of_range {x : ℚ} (h : int_range (truncated_tenths x) = true) :
    fixed_point x = .ok (truncated_tenths x) := by
  unfold fixed_point
  simp only [h, if_true]

theorem fixed_point_out_of_range {x : ℚ} (h : int_range (truncated_tenths x) = false) :
    fixed_point x = .error .cast_out_of_range := by
  unfold fixed_point
  simp only [h, Bool.false_eq_true, if_false]

theorem foldl_max_map_mono {f : ℚ → ℤ} (hf : Monotone f) (xs : List ℚ) (a : ℚ) :
    (xs.map f).foldl max (f a) = f (xs.foldl max a) := by
  induction xs generalizing a with
  | nil => rfl
  | cons x xs ih =>
    simp only [List.map_cons, List.foldl_cons]
    rw [← hf.map_max, ih]

theorem foldl_min_map_mono {f : ℚ → ℤ} (hf : Monotone f) (xs : List ℚ) (a : ℚ) :
    (xs.map f).foldl min (f a) = f (xs.foldl min a) := by
  induction xs generalizing a with
  | nil => rfl
  | cons x xs ih =>
    simp only [List.map_cons, List.foldl_cons]
    rw [← hf.map_min, ih]

theorem linear_max_int_map_truncated_tenths (xs : List ℚ) (h : xs ≠ []) :
    linear_max_int (xs.map truncated_tenths) = truncated_tenths (linear_max xs) := by
  cases xs with
  | nil => exact absurd rfl h
  | cons x xs => exact foldl_max_map_mono truncated_tenths_mono xs x

theorem linear_min_int_map_truncated_tenths (xs : List ℚ) (h : xs ≠ []) :
    linear_min_int (xs.map truncated_tenths) = truncated_tenths (linear_min xs) := by
  cases xs with
  | nil => exact absurd rfl h
  | cons x xs => exact foldl_min_map_mono truncated_tenths_mono xs x

/-- The fixed-point sum stays within one unit per reading of ten times the
exact sum, strictly when there is a reading. -/
theorem foldl_sum_truncated_tenths_close (xs : List ℚ) :
    ∀ (a : ℤ) (b : ℚ),
      (xs = [] →
        (((xs.map truncated_tenths).foldl (· + ·) a : ℤ) : ℚ) - 10 * xs.foldl (· + ·) b
          = (a : ℚ) - 10 * b)
      ∧ (xs ≠ [] →
        |(((xs.map truncated_tenths).foldl (· + ·) a : ℤ) : ℚ) - 10 * xs.foldl (· + ·) b
          - ((a : ℚ) - 10 * b)| < (xs.length : ℚ)) := by
  induction xs with
  | nil =>
    intro a b
    exact ⟨fun _ => rfl, fun h => absurd rfl h⟩
  | cons x xs ih =>
    intro a b
    refine ⟨fun h => (List.cons_ne_nil x xs h).elim, fun _ => ?_⟩
    simp only [List.map_cons, List.foldl_cons, List.length_cons]
    have hx := float_to_int_close (x * 10)
    rw [abs_lt] at hx
    obtain ⟨ih0, ih1⟩ := ih (a + truncated_tenths x) (b + x)
    have hfx : ((truncated_tenths x : ℤ) : ℚ) = ((float_to_int (x * 10) : ℤ) : ℚ) := rfl
    by_cases hxs : xs = []
    · have h0 := ih0 hxs
      subst hxs
      rw [h0, abs_lt]
      push_cast
      simp only [List.length_nil, Nat.cast_zero]
      constructor <;> linarith [hx.1, hx.2]
    · have h1 := ih1 hxs
      rw [abs_lt] at h1 ⊢
      push_cast at h1 ⊢
      constructor <;> linarith [hx.1, hx.2, h1.1, h1.2]

theorem linear_sum_int_map_truncated_tenths_close (xs : List ℚ) (h : xs ≠ []) :
    |((linear_sum_int (xs.map truncated_tenths) : ℤ) : ℚ) - 10 * linear_sum xs|
      < (xs.length : ℚ) := by
  have := (foldl_sum_truncated_tenths_close xs 0 0).2 h
  simpa [linear_sum_int, linear_sum] using this

/-- The mean of `integer_reduction` times ten is an `int` divided by the
entry count, so its cast (line 835) is in the range of `int`. -/
theorem mean_int_in_range (sum_result : ℤ) (n : ℕ) (hn : n ≠ 0)
    (hs : int_range sum_result = true) :
    int_range (float_to_int (decode_tenths sum_result / (n : ℚ) * 10)) = true := by
  rw [int_range_iff] at hs ⊢
  have hnpos : (1 : ℚ) ≤ (n : ℚ) := by
    have : 1 ≤ n := Nat.one_le_iff_ne_zero.mpr hn
    exact_mod_cast this
  have hn0 : (0 : ℚ) < (n : ℚ) := by linarith
  have hval : decode_tenths sum_result / (n : ℚ) * 10 = (sum_result : ℚ) / (n : ℚ) := by
    unfold decode_tenths
    field_simp
    ring
  rw [hval]
  have hlo : ((-2147483648 : ℤ) : ℚ) ≤ (sum_result : ℚ) / (n : ℚ) := by
    rw [le_div_iff₀ hn0]
    have h1 : ((-2147483648 : ℤ) : ℚ) ≤ (sum_result : ℚ) := by exact_mod_cast hs.1
    push_cast at h1 ⊢
    nlinarith
  have hhi : (sum_result : ℚ) / (n : ℚ) ≤ ((2147483647 : ℤ) : ℚ) := by
    rw [div_le_iff₀ hn0]
    have h1 : (sum_result : ℚ) ≤ ((2147483647 : ℤ) : ℚ) := by exact_mod_cast hs.2
    push_cast at h1 ⊢
    nlinarith
  have h1 := float_to_int_mono hlo
  have h2 := float_to_int_mono hhi
  rw [float_to_int_intCast] at h1 h2
  exact ⟨h1, h2⟩

/-! ## Facts about the load -/

theorem parse_string_to_int_of_float {line : String} {x : ℚ}
    (h : parse_string_to_float line = .ok x) :
    parse_string_to_int line = fixed_point x := by
  unfold parse_string_to_float at h
  unfold parse_string_to_int
  rw [h]
  rfl

/-- When both loads of the same lines succeed they give one value per line,
the integer one ten times the floating one, truncated, and in the range of
`int`. -/
theorem load_lines_int_of_float (lines : List String) :
    ∀ (exact : List ℚ) (scaled : List ℤ),
      load_lines parse_string_to_float lines = .ok exact →
      load_lines parse_string_to_int lines = .ok scaled →
      scaled = exact.map truncated_tenths
      ∧ (∀ v ∈ scaled, int_range v = true)
      ∧ exact.length = lines.length := by
  induction lines with
  | nil =>
    intro exact scaled h hint
    simp only [load_lines] at h hint
    injection h with h
    injection hint with hint
    subst h
    subst hint
    exact ⟨rfl, fun v hv => (List.not_mem_nil v hv).elim, rfl⟩
  | cons line rest ih =>
    intro exact scaled h hint
    simp only [load_lines] at h
    split at h
    · cases h
    · rename_i v hv
      split at h
      · cases h
      · rename_i vs hvs
        injection h with h
        subst h
        simp only [load_lines, parse_string_to_int_of_float hv] at hint
        split at hint
        · cases hint
        · rename_i w hw
          split at hint
          · cases hint
          · rename_i ws hws
            injection hint with hint
            subst hint
            obtain ⟨h1, h2, h3⟩ := ih vs ws hvs hws
            obtain ⟨e1, e2⟩ := (fixed_point_ok_iff v w).mp hw
            refine ⟨?_, ?_, ?_⟩
            · rw [List.map_cons, ← h1, e1]
            · intro u hu
              rcases List.mem_cons.mp hu with hu | hu
              · rw [hu]
                exact e2
              · exact h2 u hu
            · simp only [List.length_cons, h3]

/-- For every non-empty dataset that loads, in exact arithmetic, the
maximum, the minimum and the mean of the fixed-point values
`parse_string_to_int` produces, taken by linear scans and decoded by the
division by 10 (the mean further divided by the number of entries), each
differ from the maximum, the minimum and the mean of the exact readings by
less than 0.1. -/
theorem decoded_scans_within_tenth (lines : List String)
    (exact : List ℚ) (scaled : List ℤ) (hne : lines ≠ [])
    (hexact : load_file_float (some lines) = .ok exact)
    (hscaled : load_file_int (some lines) = .ok scaled) :
    |decode_tenths (linear_max_int scaled) - linear_max exact| < 1 / 10
    ∧ |decode_tenths (linear_min_int scaled) - linear_min exact| < 1 / 10
    ∧ |decode_tenths (linear_sum_int scaled) / (exact.length : ℚ)
        - linear_sum exact / (exact.length : ℚ)| < 1 / 10 := by
  simp only [load_file_float, load_file_int] at hexact hscaled
  obtain ⟨hmap, _, hlen⟩ := load_lines_int_of_float lines exact scaled hexact hscaled
  subst hmap
  have hex : exact ≠ [] := by
    intro h0
    rw [h0] at hlen
    exact hne (List.length_eq_zero.mp hlen.symm)
  refine ⟨?_, ?_, ?_⟩
  · rw [linear_max_int_map_truncated_tenths exact hex]
    exact truncated_tenths_close _
  · rw [linear_min_int_map_truncated_tenths exact hex]
    exact truncated_tenths_close _
  · have hsum := linear_sum_int_map_truncated_tenths_close exact hex
    have hpos : (0 : ℚ) < (exact.length : ℚ) := by
      have : 0 < exact.length := List.length_pos.mpr hex
      exact_mod_cast this
    have hrw : decode_tenths (linear_sum_int (exact.map truncated_tenths)) / (exact.length : ℚ)
          - linear_sum exact / (exact.length : ℚ)
        = (((linear_sum_int (exact.map truncated_tenths) : ℤ) : ℚ) - 10 * linear_sum exact)
            / (10 * (exact.length : ℚ)) := by
      unfold decode_tenths
      field_simp
      ring
    rw [hrw, abs_div, abs_of_pos (by linarith : (0 : ℚ) < 10 * (exact.length : ℚ)),
      div_lt_iff₀ (by linarith)]
    linarith

/-- A reading too large for the fixed-point form: the line with the reading
1e10 parses to 10000000000, ten times that is not an `int`, and the cast of
`parse_string_to_int` has no defined result. -/
theorem parse_string_to_int_large_reading :
    parse_string_to_float "BARKSTON_HEATH 1996 01 01 0000 1e10" = .ok 10000000000
    ∧ int_range (truncated_tenths 10000000000) = false
    ∧ parse_string_to_int "BARKSTON_HEATH 1996 01 01 0000 1e10" = .error .cast_out_of_range
    ∧ parse_string_to_float "BARKSTON_HEATH 1996 01 01 0000 1e39" = .error .out_of_range
    ∧ parse_string_to_int "BARKSTON_HEATH 1996 01 01 0000 1e39" = .error .out_of_range := by
  refine ⟨by decide!, by decide!, by decide!, by decide!, by decide!⟩

/-! ## Claims about the integer pipeline and the load -/

/-- C7, evaluated with the work-group size 128 of `main` and zeroed output
buffers.  One reading -5.0 (fixed-point -50): the atomic maximum is 0 while
the maximum of the unpadded sequence is -50; the same holds for 128 readings
of -5.0, where nothing is appended and the 0 is the zero the max buffer is
filled with.  One reading 5.0 (fixed-point 50): the atomic minimum is 0
while the minimum of the unpadded sequence is 50. -/
theorem C7_atomic_max_min_fold_in_zero :
    (main_integer_pipeline 128 (zeroed_int_buffers 128) [-5] [-50]).map
        (fun r => r.max_result) = .ok 0
    ∧ linear_max_int [-50] = -50
    ∧ (main_integer_pipeline 128 (zeroed_int_buffers 128)
        (List.replicate 128 (-5)) (List.replicate 128 (-50))).map
          (fun r => r.max_result) = .ok 0
    ∧ linear_max_int (List.replicate 128 (-50)) = -50
    ∧ (main_integer_pipeline 128 (zeroed_int_buffers 128) [5] [50]).map
        (fun r => r.min_result) = .ok 0
    ∧ linear_min_int [50] = 50 := by
  refine ⟨?_, ?_, ?_, ?_, ?_, ?_⟩ <;> decide!

/-- C8, failing input: a file of one line with the reading -5.0, with the
work-group size 128 of `main` and zeroed output buffers.  Both loads
succeed, with the reading -5 and the fixed-point value -50, and the exact
maximum is -5; the integer pipeline reports the decoded maximum 0, which is
5 away from it.  For a file of one line with the reading 5.0 the pipeline
reports the decoded minimum 0, 5 away from the exact minimum 5. -/
theorem C8_pipeline_decoded_extremes_off_by_five :
    load_file_float (some ["BARKSTON_HEATH 1996 01 01 0000 -5.0"]) = .ok [-5]
    ∧ load_file_int (some ["BARKSTON_HEATH 1996 01 01 0000 -5.0"]) = .ok [-50]
    ∧ linear_max [-5] = -5
    ∧ (main_integer_pipeline 128 (zeroed_int_buffers 128) [-5] [-50]).map
        (fun r => r.max_temperature) = .ok 0
    ∧ ¬ |(0 : ℚ) - linear_max [-5]| < 1 / 10
    ∧ load_file_float (some ["BARKSTON_HEATH 1996 01 01 0000 5.0"]) = .ok [5]
    ∧ load_file_int (some ["BARKSTON_HEATH 1996 01 01 0000 5.0"]) = .ok [50]
    ∧ linear_min [5] = 5
    ∧ (main_integer_pipeline 128 (zeroed_int_buffers 128) [5] [50]).map
        (fun r => r.min_temperature) = .ok 0
    ∧ ¬ |(0 : ℚ) - linear_min [5]| < 1 / 10 := by
  refine ⟨?_, ?_, ?_, ?_, ?_, ?_, ?_, ?_, ?_, ?_⟩ <;> decide!

/-- C10 fails as stated: the line with the reading 5.57 parses to 557/100;
ten times that is 55.7, which rounds to 56, but `parse_string_to_int`
returns 55. -/
theorem C10_counterexample_truncates :
    parse_string_to_float "BARKSTON_HEATH 1996 01 01 0000 5.57" = .ok (557 / 100)
    ∧ round ((557 / 100 : ℚ) * 10) = 56
    ∧ parse_string_to_int "BARKSTON_HEATH 1996 01 01 0000 5.57" = .ok 55
    ∧ parse_string_to_int "BARKSTON_HEATH 1996 01 01 0000 5.57"
        ≠ .ok (round ((557 / 100 : ℚ) * 10)) := by
  have hround : round ((557 / 100 : ℚ) * 10) = 56 := by
    rw [round_eq, Int.floor_eq_iff]
    constructor <;> norm_num
  refine ⟨by decide!, hround, by decide!, ?_⟩
  rw [hround]
  decide!

/-- C10 as amended: for every line that parses to a reading whose ten-fold,
truncated, is in the range of `int`, `parse_string_to_int` returns ten times
the value `parse_string_to_float` returns, truncated toward zero: less than
one unit from it and never farther from zero; when ten times the value is an
integer (a reading with at most one decimal digit) that is
`round(exact * 10)`.  For a reading outside that range the cast has no
defined result, so every value `parse_string_to_int` returns is that
truncation and an `int`. -/
theorem C10_fixed_point_is_truncation (line : String) (x : ℚ)
    (h : parse_string_to_float line = .ok x) :
    (int_range (float_to_int (x * 10)) = true →
      parse_string_to_int line = .ok (float_to_int (x * 10))
      ∧ |((float_to_int (x * 10) : ℤ) : ℚ) - x * 10| < 1
      ∧ |((float_to_int (x * 10) : ℤ) : ℚ)| ≤ |x * 10|
      ∧ (∀ n : ℤ, x * 10 = (n : ℚ) → parse_string_to_int line = .ok (round (x * 10))))
    ∧ (int_range (float_to_int (x * 10)) = false →
      parse_string_to_int line = .error .cast_out_of_range)
    ∧ (∀ v : ℤ, parse_string_to_int line = .ok v →
      v = float_to_int (x * 10) ∧ -2147483648 ≤ v ∧ v ≤ 2147483647) := by
  have hint : parse_string_to_int line = fixed_point x := parse_string_to_int_of_float h
  refine ⟨?_, ?_, ?_⟩
  · intro hr
    have hok : parse_string_to_int line = .ok (float_to_int (x * 10)) := by
      rw [hint]
      exact fixed_point_of_range hr
    refine ⟨hok, float_to_int_close _, ?_, ?_⟩
    · unfold float_to_int
      by_cases hx : 0 ≤ x * 10
      · simp only [hx, if_true]
        have h1 := Int.floor_le (x * 10)
        have h2 : (0 : ℚ) ≤ ((⌊x * 10⌋ : ℤ) : ℚ) := by
          exact_mod_cast Int.floor_nonneg.mpr hx
        rw [abs_of_nonneg h2, abs_of_nonneg hx]
        exact h1
      · simp only [hx, if_false]
        have hneg : x * 10 < 0 := not_le.mp hx
        have h1 := Int.le_ceil (x * 10)
        have h2 : ((⌈x * 10⌉ : ℤ) : ℚ) ≤ 0 := by
          have : ⌈x * 10⌉ ≤ 0 := Int.ceil_le.mpr (by push_cast; exact le_of_lt hneg)
          exact_mod_cast this
        rw [abs_of_nonpos h2, abs_of_neg hneg]
        linarith
    · intro n hn
      rw [hok, hn, float_to_int_intCast, round_intCast]
  · intro hr
    rw [hint]
    exact fixed_point_out_of_range hr
  · intro v hv
    rw [hint] at hv
    obtain ⟨e1, e2⟩ := (fixed_point_ok_iff x v).mp hv
    exact ⟨e1, (int_range_iff v).mp e2⟩

/-- Witness for C10: a line with the reading -4.2. -/
theorem C10_fixed_point_is_truncation_witness :
    parse_string_to_int "BARKSTON_HEATH 1996 01 01 0000 -4.2"
      = .ok (float_to_int ((-42 / 10 : ℚ) * 10)) :=
  ((C10_fixed_point_is_truncation "BARKSTON_HEATH 1996 01 01 0000 -4.2" (-42 / 10)
    (by decide!)).1 (by decide!)).1

/-! ## Claims about the run of `main` -/

/-- C9: for an empty dataset, whether the file has no line or cannot be
opened, the run of `main` ends in a `cl::Error` on every platform: it
produces no report and reaches no division by `number_of_data_entries`.
When context, queue and build succeed, the error is the one thrown by the
creation of the zero-sized input buffer. -/
theorem C9_empty_dataset_ends_in_error (platform : Platform) :
    (∃ what, main platform none = .error (.cl_error what))
    ∧ (∃ what, main platform (some []) = .error (.cl_error what))
    ∧ (platform.context_ok = true → platform.queue_ok = true → platform.build_ok = true →
        main platform none = .error (.cl_error "clCreateBuffer")
        ∧ main platform (some []) = .error (.cl_error "clCreateBuffer")) := by
  have hnone : main platform none = main platform (some []) := rfl
  rw [hnone]
  have key : ∃ what, main platform (some []) = .error (.cl_error what) := by
    unfold main
    simp only [load_file_float, load_file_int, load_lines, Except.mapError, bind, Except.bind,
      cl_call]
    cases platform.context_ok <;> cases platform.queue_ok <;> cases platform.build_ok <;>
      simp [cl_Buffer, pad_inputs]
  refine ⟨key, key, ?_⟩
  intro h1 h2 h3
  have : main platform (some []) = .error (.cl_error "clCreateBuffer") := by
    unfold main
    simp [load_file_float, load_file_int, load_lines, Except.mapError, bind, Except.bind,
      cl_call, h1, h2, h3, cl_Buffer, pad_inputs]
  exact ⟨this, this⟩

/-! ## Claims about the two forms of the dataset -/

theorem foldl_add_replicate_zero (k : ℕ) (a : ℚ) :
    (List.replicate k (0 : ℚ)).foldl (· + ·) a = a := by
  induction k with
  | zero => rfl
  | succ k ih => simp [List.replicate_succ, ih]

theorem foldl_add_replicate_zero_int (k : ℕ) (a : ℤ) :
    (List.replicate k (0 : ℤ)).foldl (· + ·) a = a := by
  induction k with
  | zero => rfl
  | succ k ih => simp [List.replicate_succ, ih]

/-- C11: for every file on which both loads succeed, `load_file_float` and
`load_file_int` return sequences of the same length, one element per line,
and after the padding step of `main` the floating and the integer sequence
both have the length `input_elements`. -/
theorem C11_both_forms_same_length (W : ℕ) (hW : 0 < W) (file : Option (List String))
    (exact : List ℚ) (scaled : List ℤ)
    (hexact : load_file_float file = .ok exact)
    (hscaled : load_file_int file = .ok scaled) :
    exact.length = scaled.length
    ∧ (∀ lines, file = some lines → exact.length = lines.length ∧ scaled.length = lines.length)
    ∧ (pad_inputs W exact scaled).air_temperatures.length
        = (pad_inputs W exact scaled).input_elements
    ∧ (pad_inputs W exact scaled).air_temperatures_int.length
        = (pad_inputs W exact scaled).input_elements := by
  have _ := hW
  have hlen : exact.length = scaled.length
      ∧ (∀ lines, file = some lines →
          exact.length = lines.length ∧ scaled.length = lines.length) := by
    cases file with
    | none =>
      simp only [load_file_float, load_file_int] at hexact hscaled
      injection hexact with h1
      injection hscaled with h2
      subst h1
      subst h2
      exact ⟨rfl, fun lines h => by cases h⟩
    | some lines =>
      simp only [load_file_float, load_file_int] at hexact hscaled
      obtain ⟨hmap, _, hl⟩ := load_lines_int_of_float lines exact scaled hexact hscaled
      subst hmap
      refine ⟨by simp, ?_⟩
      intro lines2 h
      injection h with h
      subst h
      exact ⟨hl, by simp [hl]⟩
  refine ⟨hlen.1, hlen.2, pad_inputs_length W exact scaled, ?_⟩
  rw [pad_inputs_air_temperatures_int, pad_inputs_input_elements, List.length_append,
    List.length_replicate, hlen.1]

/-- Witness for C11: a file of two lines. -/
theorem C11_both_forms_same_length_witness :
    (pad_inputs 128 [557 / 100, -327 / 100] [55, -32]).air_temperatures_int.length
      = (pad_inputs 128 [557 / 100, -327 / 100] [55, -32]).input_elements :=
  (C11_both_forms_same_length 128 (by decide)
    (some ["BARKSTON_HEATH 1996 01 01 0000 5.57", "BARKSTON_HEATH 1996 01 01 0030 -3.27"])
    [557 / 100, -327 / 100] [55, -32] (by decide!) (by decide!)).2.2.2

/-- C18: for every dataset and `W > 0`, the sum of the padded floating
sequence equals the sum of the original sequence, and the sum of the padded
integer sequence equals the sum of the original integer sequence. -/
theorem C18_padding_keeps_sum (W : ℕ) (hW : 0 < W) (xs : List ℚ) (ys : List ℤ) :
    linear_sum (pad_inputs W xs ys).air_temperatures = linear_sum xs
    ∧ linear_sum_int (pad_inputs W xs ys).air_temperatures_int = linear_sum_int ys := by
  have _ := hW
  rw [pad_inputs_air_temperatures, pad_inputs_air_temperatures_int]
  unfold linear_sum linear_sum_int
  rw [List.foldl_append, List.foldl_append, foldl_add_replicate_zero,
    foldl_add_replicate_zero_int]
  exact ⟨rfl, rfl⟩

/-- Witness for C18: three readings in groups of four. -/
theorem C18_padding_keeps_sum_witness :
    linear_sum (pad_inputs 4 [55 / 10, -32 / 10, 81 / 10] [55, -32, 81]).air_temperatures
      = linear_sum [55 / 10, -32 / 10, 81 / 10] :=
  (C18_padding_keeps_sum 4 (by decide) [55 / 10, -32 / 10, 81 / 10] [55, -32, 81]).1

/-! ## Facts about the convergence loop -/

theorem foldl_set_getElem?_of_ne {α : Type} (idx : ℕ → ℕ) (val : ℕ → α) (i : ℕ) :
    ∀ (gs : List ℕ) (out : List α), (∀ g ∈ gs, idx g ≠ i) →
      (gs.foldl (fun o g => o.set (idx g) (val g)) out)[i]? = out[i]? := by
  intro gs
  induction gs with
  | nil => intro out _; rfl
  | cons g gs ih =>
    intro out h
    rw [List.foldl_cons, ih _ (fun g' hg' => h g' (List.mem_cons_of_mem g hg'))]
    exact List.getElem?_set_ne (h g (List.mem_cons_self g gs))

/-- A launch leaves an element unchanged that is no group's slot. -/
theorem enqueue_getElem?_of_untouched (layout : SlotLayout) (kernel : Kernel)
    (L W : ℕ) (input output : List ℚ) (i : ℕ)
    (h : ∀ g, g < L / W → layout.slot W g ≠ i) :
    (enqueueNDRangeKernel layout kernel L W input output)[i]? = output[i]? := by
  unfold enqueueNDRangeKernel
  exact foldl_set_getElem?_of_ne (fun g => layout.slot W g)
    (fun g => kernel.group_result (group_slice W g input)) i _ output
    (fun g hg => h g (List.mem_range.mp hg))

/-- With slots at the group offsets and groups of at least two elements no
launch writes element 1. -/
theorem enqueue_keeps_one_group_offset (kernel : Kernel) (L W : ℕ) (hW : 2 ≤ W)
    (input output : List ℚ) :
    (enqueueNDRangeKernel .group_offset kernel L W input output)[1]? = output[1]? := by
  apply enqueue_getElem?_of_untouched
  intro g _ hg
  simp only [SlotLayout.slot] at hg
  rcases Nat.eq_zero_or_pos g with h0 | hpos
  · subst h0
    simp at hg
  · have : 2 ≤ g * W := by
      calc 2 ≤ W := hW
        _ = 1 * W := (Nat.one_mul W).symm
        _ ≤ g * W := Nat.mul_le_mul_right W hpos
    omega

/-- With a single work-group no launch writes element 1. -/
theorem enqueue_keeps_one_single_group (layout : SlotLayout) (kernel : Kernel) (L W : ℕ)
    (h : L / W ≤ 1) (input output : List ℚ) :
    (enqueueNDRangeKernel layout kernel L W input output)[1]? = output[1]? := by
  apply enqueue_getElem?_of_untouched
  intro g hg hslot
  have hg0 : g = 0 := by omega
  subst hg0
  cases layout <;> simp [SlotLayout.slot] at hslot

/-- With a single work-group a launch writes element 0 only. -/
theorem enqueue_single_group (layout : SlotLayout) (kernel : Kernel) (L W : ℕ)
    (h : L / W = 1) (input output : List ℚ) :
    enqueueNDRangeKernel layout kernel L W input output
      = output.set 0 (kernel.group_result (group_slice W 0 input)) := by
  unfold enqueueNDRangeKernel
  rw [h]
  cases layout <;> simp [List.range_succ, SlotLayout.slot]

/-- When no launch writes element 1 and element 1 is not zero, the loop is
still running after any number of passes. -/
theorem convergence_loop_never_stops (layout : SlotLayout) (kernel : Kernel) (L W : ℕ)
    (hkeep : ∀ buf : List ℚ, (enqueueNDRangeKernel layout kernel L W buf buf)[1]? = buf[1]?) :
    ∀ (fuel : ℕ) (result : List ℚ) (k : ℕ) (v : ℚ), result[1]? = some v → v ≠ 0 →
      convergence_loop layout kernel L W fuel result k = .error .out_of_fuel := by
  intro fuel
  induction fuel with
  | zero => intro result k v _ _; rfl
  | succ fuel ih =>
    intro result k v h1 hv
    unfold convergence_loop
    simp only [h1, hv, if_false]
    exact ih _ _ v ((hkeep result).trans h1) hv

/-- A statistic whose first read-back has a non-zero element 1 that later
launches do not write never finishes. -/
theorem tree_reduction_stuck (layout : SlotLayout) (first next : Kernel) (L W : ℕ)
    (input out : List ℚ) (v : ℚ)
    (hkeep : ∀ buf : List ℚ, (enqueueNDRangeKernel layout next L W buf buf)[1]? = buf[1]?)
    (h1 : (enqueueNDRangeKernel layout first L W input out)[1]? = some v) (hv : v ≠ 0)
    (fuel : ℕ) :
    tree_reduction layout first next L W fuel input out = .error .out_of_fuel := by
  unfold tree_reduction
  simp only [convergence_loop_never_stops layout next L W hkeep fuel _ 1 v h1 hv]

/-- A statistic whose first read-back has a zero element 1 finishes after
the first launch with element 0 of that read-back. -/
theorem tree_reduction_stops (layout : SlotLayout) (first next : Kernel) (L W : ℕ)
    (input out : List ℚ) (v : ℚ)
    (h1 : (enqueueNDRangeKernel layout first L W input out)[1]? = some 0)
    (h0 : (enqueueNDRangeKernel layout first L W input out)[0]? = some v)
    (fuel : ℕ) :
    tree_reduction layout first next L W (fuel + 1) input out = .ok (v, 1) := by
  unfold tree_reduction convergence_loop
  simp only [h1, if_true, h0]

/-- With a single work-group and a zero at element 1 of the fresh output
buffer a statistic finishes after one launch with the group's result. -/
theorem tree_reduction_one_group_stops (layout : SlotLayout) (first next : Kernel) (L W : ℕ)
    (h : L / W = 1) (input out : List ℚ) (hout : out[1]? = some 0) (fuel : ℕ) :
    tree_reduction layout first next L W (fuel + 1) input out
      = .ok (first.group_result (group_slice W 0 input), 1) := by
  apply tree_reduction_stops
  · rw [enqueue_keeps_one_single_group layout first L W (le_of_eq h)]
    exact hout
  · rw [enqueue_single_group layout first L W h]
    apply List.getElem?_set_self
    have := (List.getElem?_eq_some.mp hout).1
    omega

/-- With a single work-group a statistic that finishes did so after one
launch, with the group's result, and element 1 of the fresh buffer was zero. -/
theorem tree_reduction_one_group_ok (layout : SlotLayout) (first next : Kernel) (L W : ℕ)
    (h : L / W = 1) (input out : List ℚ) (fuel : ℕ) (v : ℚ) (k : ℕ)
    (hrun : tree_reduction layout first next L W fuel input out = .ok (v, k)) :
    v = first.group_result (group_slice W 0 input) ∧ k = 1 ∧ out[1]? = some 0 := by
  have hkeep1 := enqueue_keeps_one_single_group layout first L W (le_of_eq h) input out
  cases hout : out[1]? with
  | none =>
    unfold tree_reduction at hrun
    cases fuel with
    | zero => simp [convergence_loop] at hrun
    | succ fuel =>
      unfold convergence_loop at hrun
      simp [hkeep1, hout] at hrun
  | some x =>
    by_cases hx : x = 0
    · subst hx
      cases fuel with
      | zero => simp [tree_reduction, convergence_loop] at hrun
      | succ fuel =>
        rw [tree_reduction_one_group_stops layout first next L W h input out hout fuel] at hrun
        injection hrun with hrun
        injection hrun with hv hk
        exact ⟨hv.symm, hk.symm, rfl⟩
    · have hstuck := tree_reduction_stuck layout first next L W input out x
        (fun buf => enqueue_keeps_one_single_group layout next L W (le_of_eq h) buf buf)
        (hkeep1.trans hout) hx fuel
      rw [hstuck] at hrun
      cases hrun

/-! ## Facts about the stages of `float_reduction` -/

theorem tree_reduction_zero_fuel (layout : SlotLayout) (first next : Kernel) (L W : ℕ)
    (input out : List ℚ) :
    tree_reduction layout first next L W 0 input out = .error .out_of_fuel := rfl

/-- A finished run of `float_reduction` read backwards, all six values. -/
theorem float_reduction_ok_all {layout : SlotLayout} {fuel N L W : ℕ} {fresh : FreshBuffers}
    {input : List ℚ} {r : FloatStatistics}
    (h : float_reduction layout fuel N fresh L input W = .ok r) :
    (∃ k, tree_reduction layout .reduction_max .reduction_max L W fuel input
        (List.replicate L 0) = .ok (r.max_temperature, k))
    ∧ (∃ k, tree_reduction layout .reduction_min .reduction_min L W fuel input
        fresh.buffer_output_redux_min = .ok (r.min_temperature, k))
    ∧ (∃ k, tree_reduction layout .reduction_sum .reduction_sum L W fuel input
        fresh.buffer_output_redux_sum = .ok (r.sum_result, k))
    ∧ divide_by_entries r.sum_result N = .ok r.mean_float
    ∧ (∃ k, tree_reduction layout (.reduction_standard_deviation r.mean_float) .reduction_sum
        L W fuel input fresh.buffer_output_redux_std_dev = .ok (r.std_dev_result, k))
    ∧ divide_by_entries r.std_dev_result N = .ok r.variance_float := by
  unfold float_reduction at h
  simp only [bind, Except.bind, pure, Except.pure] at h
  split at h
  · cases h
  · rename_i hmax
    split at h
    · cases h
    · rename_i hmin
      split at h
      · cases h
      · rename_i hsum
        split at h
        · cases h
        · rename_i hmean
          split at h
          · cases h
          · rename_i hstd
            split at h
            · cases h
            · rename_i hvar
              injection h with h
              subst h
              exact ⟨⟨_, hmax⟩, ⟨_, hmin⟩, ⟨_, hsum⟩, hmean, ⟨_, hstd⟩, hvar⟩

/-- The run of `float_reduction` put together from its finished stages. -/
theorem float_reduction_of_stages {layout : SlotLayout} {fuel N L W : ℕ} {fresh : FreshBuffers}
    {input : List ℚ} {vmax vmin vsum vmean vstd vvar : ℚ} {kmax kmin ksum kstd : ℕ}
    (hmax : tree_reduction layout .reduction_max .reduction_max L W fuel input
        (List.replicate L 0) = .ok (vmax, kmax))
    (hmin : tree_reduction layout .reduction_min .reduction_min L W fuel input
        fresh.buffer_output_redux_min = .ok (vmin, kmin))
    (hsum : tree_reduction layout .reduction_sum .reduction_sum L W fuel input
        fresh.buffer_output_redux_sum = .ok (vsum, ksum))
    (hmean : divide_by_entries vsum N = .ok vmean)
    (hstd : tree_reduction layout (.reduction_standard_deviation vmean) .reduction_sum
        L W fuel input fresh.buffer_output_redux_std_dev = .ok (vstd, kstd))
    (hvar : divide_by_entries vstd N = .ok vvar) :
    float_reduction layout fuel N fresh L input W
      = .ok
        { max_temperature := vmax
          min_temperature := vmin
          sum_result := vsum
          mean_float := vmean
          std_dev_result := vstd
          variance_float := vvar } := by
  unfold float_reduction
  simp only [bind, Except.bind, pure, Except.pure, hmax, hmin, hsum, hmean, hstd, hvar]

theorem float_reduction_max_error {layout : SlotLayout} {fuel N L W : ℕ} {fresh : FreshBuffers}
    {input : List ℚ} {e : Fault}
    (hmax : tree_reduction layout .reduction_max .reduction_max L W fuel input
        (List.replicate L 0) = .error e) :
    float_reduction layout fuel N fresh L input W = .error e := by
  unfold float_reduction
  simp only [bind, Except.bind, hmax]

theorem float_reduction_min_error {layout : SlotLayout} {fuel N L W : ℕ} {fresh : FreshBuffers}
    {input : List ℚ} {e : Fault} {vmax : ℚ} {kmax : ℕ}
    (hmax : tree_reduction layout .reduction_max .reduction_max L W fuel input
        (List.replicate L 0) = .ok (vmax, kmax))
    (hmin : tree_reduction layout .reduction_min .reduction_min L W fuel input
        fresh.buffer_output_redux_min = .error e) :
    float_reduction layout fuel N fresh L input W = .error e := by
  unfold float_reduction
  simp only [bind, Except.bind, hmax, hmin]

theorem float_reduction_sum_error {layout : SlotLayout} {fuel N L W : ℕ} {fresh : FreshBuffers}
    {input : List ℚ} {e : Fault} {vmax vmin : ℚ} {kmax kmin : ℕ}
    (hmax : tree_reduction layout .reduction_max .reduction_max L W fuel input
        (List.replicate L 0) = .ok (vmax, kmax))
    (hmin : tree_reduction layout .reduction_min .reduction_min L W fuel input
        fresh.buffer_output_redux_min = .ok (vmin, kmin))
    (hsum : tree_reduction layout .reduction_sum .reduction_sum L W fuel input
        fresh.buffer_output_redux_sum = .error e) :
    float_reduction layout fuel N fresh L input W = .error e := by
  unfold float_reduction
  simp only [bind, Except.bind, hmax, hmin, hsum]

/-- With a single work-group every finished run of `float_reduction` reports
the linear scans of the padded buffer's only slice, the sums divided by the
entry count. -/
theorem float_reduction_one_group_ok {layout : SlotLayout} {fuel N L W : ℕ}
    {fresh : FreshBuffers} {input : List ℚ} {r : FloatStatistics} (h : L / W = 1)
    (hrun : float_reduction layout fuel N fresh L input W = .ok r) :
    r.max_temperature = linear_max (group_slice W 0 input)
    ∧ r.min_temperature = linear_min (group_slice W 0 input)
    ∧ r.sum_result = linear_sum (group_slice W 0 input)
    ∧ r.mean_float = r.sum_result / (N : ℚ)
    ∧ r.std_dev_result = squared_deviation_sum r.mean_float (group_slice W 0 input)
    ∧ r.variance_float = r.std_dev_result / (N : ℚ) := by
  obtain ⟨⟨_, hmax⟩, ⟨_, hmin⟩, ⟨_, hsum⟩, hmean, ⟨_, hstd⟩, hvar⟩ := float_reduction_ok_all hrun
  exact ⟨(tree_reduction_one_group_ok layout _ _ L W h input _ fuel _ _ hmax).1,
    (tree_reduction_one_group_ok layout _ _ L W h input _ fuel _ _ hmin).1,
    (tree_reduction_one_group_ok layout _ _ L W h input _ fuel _ _ hsum).1,
    (divide_by_entries_ok hmean).2,
    (tree_reduction_one_group_ok layout _ _ L W h input _ fuel _ _ hstd).1,
    (divide_by_entries_ok hvar).2⟩

/-- With a single work-group of at least two elements, a non-zero entry
count and a zero at element 1 of each fresh output buffer, `float_reduction`
finishes as soon as the loops may run. -/
theorem float_reduction_one_group_finishes (layout : SlotLayout) (fuel N L W : ℕ)
    (fresh : FreshBuffers) (input : List ℚ) (h : L / W = 1) (hL : 2 ≤ L) (hN : N ≠ 0)
    (hmin : fresh.buffer_output_redux_min[1]? = some 0)
    (hsum : fresh.buffer_output_redux_sum[1]? = some 0)
    (hstd : fresh.buffer_output_redux_std_dev[1]? = some 0) :
    float_reduction layout (fuel + 1) N fresh L input W
      = .ok
        { max_temperature := linear_max (group_slice W 0 input)
          min_temperature := linear_min (group_slice W 0 input)
          sum_result := linear_sum (group_slice W 0 input)
          mean_float := linear_sum (group_slice W 0 input) / (N : ℚ)
          std_dev_result :=
            squared_deviation_sum (linear_sum (group_slice W 0 input) / (N : ℚ))
              (group_slice W 0 input)
          variance_float :=
            squared_deviation_sum (linear_sum (group_slice W 0 input) / (N : ℚ))
              (group_slice W 0 input) / (N : ℚ) } := by
  have hzero : (List.replicate L (0 : ℚ))[1]? = some 0 := by
    rw [List.getElem?_replicate]
    simp only [ite_eq_left_iff]
    intro hcon
    omega
  have hdiv : ∀ x : ℚ, divide_by_entries x N = .ok (x / (N : ℚ)) := by
    intro x
    unfold divide_by_entries
    simp only [hN, if_false]
  exact float_reduction_of_stages
    (tree_reduction_one_group_stops layout _ _ L W h input _ hzero fuel)
    (tree_reduction_one_group_stops layout _ _ L W h input _ hmin fuel)
    (tree_reduction_one_group_stops layout _ _ L W h input _ hsum fuel)
    (hdiv _)
    (tree_reduction_one_group_stops layout _ _ L W h input _ hstd fuel)
    (hdiv _)

/-- What `float_reduction` reports for a buffer of a single work-group: the
linear scans of its only slice. -/
theorem float_reduction_one_group_eq {layout : SlotLayout} {fuel N L W : ℕ}
    {fresh : FreshBuffers} {input : List ℚ} {r : FloatStatistics} (h : L / W = 1)
    (hrun : float_reduction layout fuel N fresh L input W = .ok r) :
    r =
      { max_temperature := linear_max (group_slice W 0 input)
        min_temperature := linear_min (group_slice W 0 input)
        sum_result := linear_sum (group_slice W 0 input)
        mean_float := linear_sum (group_slice W 0 input) / (N : ℚ)
        std_dev_result :=
          squared_deviation_sum (linear_sum (group_slice W 0 input) / (N : ℚ))
            (group_slice W 0 input)
        variance_float :=
          squared_deviation_sum (linear_sum (group_slice W 0 input) / (N : ℚ))
            (group_slice W 0 input) / (N : ℚ) } := by
  obtain ⟨h1, h2, h3, h4, h5, h6⟩ := float_reduction_one_group_ok h hrun
  cases r
  simp only at h1 h2 h3 h4 h5 h6
  subst h1 h2 h3
  subst h4
  subst h5
  subst h6
  rfl

/-- With a single work-group of at least two elements and a non-zero element
1 in the fresh min buffer, which no launch writes, `float_reduction` does not
finish, however many passes its loops may run. -/
theorem float_reduction_one_group_stuck (layout : SlotLayout) (fuel N L W : ℕ)
    (fresh : FreshBuffers) (input : List ℚ) (h : L / W = 1) (hL : 2 ≤ L) (v : ℚ)
    (hmin : fresh.buffer_output_redux_min[1]? = some v) (hv : v ≠ 0) :
    float_reduction layout fuel N fresh L input W = .error .out_of_fuel := by
  cases fuel with
  | zero => exact float_reduction_max_error (tree_reduction_zero_fuel _ _ _ _ _ _ _)
  | succ fuel =>
    have hzero : (List.replicate L (0 : ℚ))[1]? = some 0 := by
      rw [List.getElem?_replicate]
      simp only [ite_eq_left_iff]
      intro hcon
      omega
    exact float_reduction_min_error
      (tree_reduction_one_group_stops layout _ _ L W h input _ hzero fuel)
      (tree_reduction_stuck layout _ _ L W input _ v
        (fun buf => enqueue_keeps_one_single_group layout _ L W (le_of_eq h) buf buf)
        ((enqueue_keeps_one_single_group layout _ L W (le_of_eq h) _ _).trans hmin) hv _)

/-! ## The concrete scenarios -/

/-- For the dataset [10.0, 20.0, 30.0, 0.0] with work-group size 4, every
finished run of the floating pipeline yields max 30, min 0, sum 60, mean 15
and variance 125 (squared deviations 500), whatever the output buffers held
when created; and the run finishes as soon as the loops may run when element
1 of each fresh output buffer is zero. -/
theorem scenario_four_readings_finished_runs (layout : SlotLayout) (fresh : FreshBuffers)
    (ys : List ℤ) :
    (∀ (fuel : ℕ) (r : FloatStatistics),
        main_float_pipeline layout fuel 4 fresh [10, 20, 30, 0] ys = .ok r →
        r =
          { max_temperature := 30
            min_temperature := 0
            sum_result := 60
            mean_float := 15
            std_dev_result := 500
            variance_float := 125 })
    ∧ (fresh.buffer_output_redux_min[1]? = some 0 →
        fresh.buffer_output_redux_sum[1]? = some 0 →
        fresh.buffer_output_redux_std_dev[1]? = some 0 →
        ∀ fuel : ℕ,
          main_float_pipeline layout (fuel + 1) 4 fresh [10, 20, 30, 0] ys
            = .ok
              { max_temperature := 30
                min_temperature := 0
                sum_result := 60
                mean_float := 15
                std_dev_result := 500
                variance_float := 125 }) := by
  have hp : ∀ fuel, main_float_pipeline layout fuel 4 fresh [10, 20, 30, 0] ys
      = float_reduction layout fuel 4 fresh 4 [10, 20, 30, 0] 4 := fun _ => rfl
  have hval :
      ({ max_temperature := linear_max (group_slice 4 0 [10, 20, 30, 0])
         min_temperature := linear_min (group_slice 4 0 [10, 20, 30, 0])
         sum_result := linear_sum (group_slice 4 0 [10, 20, 30, 0])
         mean_float := linear_sum (group_slice 4 0 [10, 20, 30, 0]) / ((4 : ℕ) : ℚ)
         std_dev_result :=
           squared_deviation_sum (linear_sum (group_slice 4 0 [10, 20, 30, 0]) / ((4 : ℕ) : ℚ))
             (group_slice 4 0 [10, 20, 30, 0])
         variance_float :=
           squared_deviation_sum (linear_sum (group_slice 4 0 [10, 20, 30, 0]) / ((4 : ℕ) : ℚ))
             (group_slice 4 0 [10, 20, 30, 0]) / ((4 : ℕ) : ℚ) } : FloatStatistics)
        = { max_temperature := 30
            min_temperature := 0
            sum_result := 60
            mean_float := 15
            std_dev_result := 500
            variance_float := 125 } := by decide!
  refine ⟨?_, ?_⟩
  · intro fuel r hrun
    rw [hp] at hrun
    rw [float_reduction_one_group_eq (by rfl : 4 / 4 = 1) hrun]
    exact hval
  · intro hmin hsum hstd fuel
    rw [hp, float_reduction_one_group_finishes layout fuel 4 4 4 fresh [10, 20, 30, 0]
      (by rfl) (by decide) (by decide) hmin hsum hstd]
    exact congrArg Except.ok hval

/-- For the dataset [5.5, -3.2, 8.1] with work-group size 4 exactly one
element of value 0 is appended, and every finished run of the floating
pipeline reports the minimum -3.2 and the maximum 8.1, whatever the output
buffers held when created; the run finishes as soon as the loops may run
when element 1 of each fresh output buffer is zero. -/
theorem scenario_three_readings_finished_runs (layout : SlotLayout) (fresh : FreshBuffers)
    (ys : List ℤ) :
    (pad_inputs 4 [55 / 10, -32 / 10, 81 / 10] ys).air_temperatures
        = [55 / 10, -32 / 10, 81 / 10] ++ [0]
    ∧ (∀ (fuel : ℕ) (r : FloatStatistics),
        main_float_pipeline layout fuel 4 fresh [55 / 10, -32 / 10, 81 / 10] ys = .ok r →
        r.min_temperature = -32 / 10 ∧ r.max_temperature = 81 / 10)
    ∧ (fresh.buffer_output_redux_min[1]? = some 0 →
        fresh.buffer_output_redux_sum[1]? = some 0 →
        fresh.buffer_output_redux_std_dev[1]? = some 0 →
        ∀ fuel : ℕ,
          main_float_pipeline layout (fuel + 1) 4 fresh [55 / 10, -32 / 10, 81 / 10] ys
            = .ok
              { max_temperature := 81 / 10
                min_temperature := -32 / 10
                sum_result := 52 / 5
                mean_float := 52 / 15
                std_dev_result := 36929 / 450
                variance_float := 36929 / 1350 }) := by
  have hp : ∀ fuel, main_float_pipeline layout fuel 4 fresh [55 / 10, -32 / 10, 81 / 10] ys
      = float_reduction layout fuel 3 fresh 4 [55 / 10, -32 / 10, 81 / 10, 0] 4 := fun _ => rfl
  have hval :
      ({ max_temperature := linear_max (group_slice 4 0 [55 / 10, -32 / 10, 81 / 10, 0])
         min_temperature := linear_min (group_slice 4 0 [55 / 10, -32 / 10, 81 / 10, 0])
         sum_result := linear_sum (group_slice 4 0 [55 / 10, -32 / 10, 81 / 10, 0])
         mean_float :=
           linear_sum (group_slice 4 0 [55 / 10, -32 / 10, 81 / 10, 0]) / ((3 : ℕ) : ℚ)
         std_dev_result :=
           squared_deviation_sum
             (linear_sum (group_slice 4 0 [55 / 10, -32 / 10, 81 / 10, 0]) / ((3 : ℕ) : ℚ))
             (group_slice 4 0 [55 / 10, -32 / 10, 81 / 10, 0])
         variance_float :=
           squared_deviation_sum
             (linear_sum (group_slice 4 0 [55 / 10, -32 / 10, 81 / 10, 0]) / ((3 : ℕ) : ℚ))
             (group_slice 4 0 [55 / 10, -32 / 10, 81 / 10, 0]) / ((3 : ℕ) : ℚ) }
          : FloatStatistics)
        = { max_temperature := 81 / 10
            min_temperature := -32 / 10
            sum_result := 52 / 5
            mean_float := 52 / 15
            std_dev_result := 36929 / 450
            variance_float := 36929 / 1350 } := by decide!
  refine ⟨rfl, ?_, ?_⟩
  · intro fuel r hrun
    rw [hp] at hrun
    rw [float_reduction_one_group_eq (by rfl : 4 / 4 = 1) hrun, hval]
    exact ⟨rfl, rfl⟩
  · intro hmin hsum hstd fuel
    rw [hp, float_reduction_one_group_finishes layout fuel 3 4 4 fresh
      [55 / 10, -32 / 10, 81 / 10, 0] (by rfl) (by decide) (by decide) hmin hsum hstd]
    exact congrArg Except.ok hval

/-! ## Claims about the concrete scenarios -/

/-- C13, failing input: the dataset [10.0, 20.0, 30.0, 0.0] with work-group
size 4 on a device whose newly created output buffers hold 1.0.  The min
buffer is created without a fill (line 503); no launch writes its element 1,
the test of line 539 never finds it zero, and the pipeline yields no value,
however many passes the loop may run, under both slot layouts.  When the
buffers happen to hold zeros the run finishes with max 30, min 0, sum 60,
mean 15 and variance 125. -/
theorem C13_scenario_yields_nothing_on_stale_memory :
    (∀ (layout : SlotLayout) (fuel : ℕ) (ys : List ℤ),
        main_float_pipeline layout fuel 4 (stale_buffers 4 1) [10, 20, 30, 0] ys
          = .error .out_of_fuel)
    ∧ (∀ (layout : SlotLayout) (fuel : ℕ) (ys : List ℤ),
        main_float_pipeline layout (fuel + 1) 4 (zeroed_buffers 4) [10, 20, 30, 0] ys
          = .ok
            { max_temperature := 30
              min_temperature := 0
              sum_result := 60
              mean_float := 15
              std_dev_result := 500
              variance_float := 125 }) := by
  constructor
  · intro layout fuel ys
    have hp : main_float_pipeline layout fuel 4 (stale_buffers 4 1) [10, 20, 30, 0] ys
        = float_reduction layout fuel 4 (stale_buffers 4 1) 4 [10, 20, 30, 0] 4 := rfl
    rw [hp]
    exact float_reduction_one_group_stuck layout fuel 4 4 4 (stale_buffers 4 1) _
      (by rfl) (by decide) 1 (by decide!) one_ne_zero
  · intro layout fuel ys
    exact (scenario_four_readings_finished_runs layout (zeroed_buffers 4) ys).2
      (by decide!) (by decide!) (by decide!) fuel

/-- C14, failing input: the dataset [5.5, -3.2, 8.1] with work-group size 4
on a device whose newly created output buffers hold 1.0.  Exactly one
element of value 0 is appended.  The min buffer is created without a fill
(line 503); no launch writes its element 1, the test of line 539 never
finds it zero, and no minimum is reported, however many passes the loop may
run, under both slot layouts.  When the buffers happen to hold zeros the
run finishes and reports the minimum -3.2 and the maximum 8.1. -/
theorem C14_scenario_reports_nothing_on_stale_memory :
    (∀ ys : List ℤ, (pad_inputs 4 [55 / 10, -32 / 10, 81 / 10] ys).air_temperatures
        = [55 / 10, -32 / 10, 81 / 10] ++ [0])
    ∧ (∀ (layout : SlotLayout) (fuel : ℕ) (ys : List ℤ),
        main_float_pipeline layout fuel 4 (stale_buffers 4 1) [55 / 10, -32 / 10, 81 / 10] ys
          = .error .out_of_fuel)
    ∧ (∀ (layout : SlotLayout) (fuel : ℕ) (ys : List ℤ),
        main_float_pipeline layout (fuel + 1) 4 (zeroed_buffers 4)
            [55 / 10, -32 / 10, 81 / 10] ys
          = .ok
            { max_temperature := 81 / 10
              min_temperature := -32 / 10
              sum_result := 52 / 5
              mean_float := 52 / 15
              std_dev_result := 36929 / 450
              variance_float := 36929 / 1350 }) := by
  refine ⟨fun ys => rfl, ?_, ?_⟩
  · intro layout fuel ys
    have hp : main_float_pipeline layout fuel 4 (stale_buffers 4 1)
          [55 / 10, -32 / 10, 81 / 10] ys
        = float_reduction layout fuel 3 (stale_buffers 4 1) 4
          [55 / 10, -32 / 10, 81 / 10, 0] 4 := rfl
    rw [hp]
    exact float_reduction_one_group_stuck layout fuel 3 4 4 (stale_buffers 4 1) _
      (by rfl) (by decide) 1 (by decide!) one_ne_zero
  · intro layout fuel ys
    exact (scenario_three_readings_finished_runs layout (zeroed_buffers 4) ys).2.2
      (by decide!) (by decide!) (by decide!) fuel

/-! ## Claims about the convergence loop and the output buffers -/

/-- Without padding `main` hands the dataset itself to `float_reduction`. -/
theorem main_float_pipeline_no_padding (layout : SlotLayout) (fuel W : ℕ)
    (fresh : FreshBuffers) (xs : List ℚ) (ys : List ℤ) (h : xs.length % W = 0) :
    main_float_pipeline layout fuel W fresh xs ys
      = float_reduction layout fuel xs.length fresh xs.length xs W := by
  unfold main_float_pipeline floating_point_kernel_calls pad_inputs
  simp [h]

/-- C12, evaluated on 128 readings of 1.0 with the work-group size 128 of
`main` (one work-group, `L = W = 128`).  The max loop, whose buffer is
filled with zeros, stops after one launch.  The min, sum and
squared-deviation buffers are not filled: when their memory holds 1.0 the
first read-back has 1.0 at element 1, no launch writes that element, and
the loop is still running after any number of passes, so the pipeline never
finishes. -/
theorem C12_loops_never_stop_on_stale_memory :
    (∀ (layout : SlotLayout) (fuel : ℕ),
        tree_reduction layout .reduction_max .reduction_max 128 128 (fuel + 1)
          (List.replicate 128 1) (List.replicate 128 0) = .ok (1, 1))
    ∧ (∀ (layout : SlotLayout) (fuel : ℕ),
        tree_reduction layout .reduction_min .reduction_min 128 128 fuel
          (List.replicate 128 1) (stale_buffers 128 1).buffer_output_redux_min
            = .error .out_of_fuel)
    ∧ (∀ (layout : SlotLayout) (fuel : ℕ),
        tree_reduction layout .reduction_sum .reduction_sum 128 128 fuel
          (List.replicate 128 1) (stale_buffers 128 1).buffer_output_redux_sum
            = .error .out_of_fuel)
    ∧ (∀ (layout : SlotLayout) (fuel : ℕ),
        tree_reduction layout (.reduction_standard_deviation 1) .reduction_sum 128 128 fuel
          (List.replicate 128 1) (stale_buffers 128 1).buffer_output_redux_std_dev
            = .error .out_of_fuel)
    ∧ (∀ (layout : SlotLayout) (fuel : ℕ),
        main_float_pipeline layout fuel 128 (stale_buffers 128 1)
          (List.replicate 128 1) (List.replicate 128 10) = .error .out_of_fuel) := by
  have hone : (128 : ℕ) / 128 = 1 := by decide
  have hstale : (List.replicate 128 (1 : ℚ))[1]? = some 1 := by decide!
  have hzero : (List.replicate 128 (0 : ℚ))[1]? = some 0 := by decide!
  have hmaxval : Kernel.group_result .reduction_max (group_slice 128 0 (List.replicate 128 1))
      = 1 := by decide!
  have hmax : ∀ (layout : SlotLayout) (fuel : ℕ),
      tree_reduction layout .reduction_max .reduction_max 128 128 (fuel + 1)
        (List.replicate 128 1) (List.replicate 128 0) = .ok (1, 1) := by
    intro layout fuel
    rw [tree_reduction_one_group_stops layout _ _ 128 128 hone _ _ hzero fuel, hmaxval]
  have hstuck : ∀ (layout : SlotLayout) (first next : Kernel) (fuel : ℕ),
      tree_reduction layout first next 128 128 fuel (List.replicate 128 1)
        (List.replicate 128 1) = .error .out_of_fuel := by
    intro layout first next fuel
    exact tree_reduction_stuck layout first next 128 128 _ _ 1
      (fun buf => enqueue_keeps_one_single_group layout next 128 128 (le_of_eq hone) buf buf)
      ((enqueue_keeps_one_single_group layout first 128 128 (le_of_eq hone) _ _).trans hstale)
      one_ne_zero fuel
  refine ⟨hmax, fun layout fuel => hstuck layout _ _ fuel, fun layout fuel => hstuck layout _ _ fuel,
    fun layout fuel => hstuck layout _ _ fuel, ?_⟩
  intro layout fuel
  rw [main_float_pipeline_no_padding layout fuel 128 _ _ _ (by decide!)]
  have hlen : (List.replicate 128 (1 : ℚ)).length = 128 := by decide!
  rw [hlen]
  cases fuel with
  | zero => exact float_reduction_max_error (tree_reduction_zero_fuel _ _ _ _ _ _ _)
  | succ fuel => exact float_reduction_min_error (hmax layout fuel) (hstuck layout _ _ _)

/-- C15, evaluated on 384 readings of 1.0 with the work-group size 128 of
`main`: the same padded buffer, entry count and work-group size, once with
output buffers holding zeros and once with a sum buffer whose memory holds
1.0 at element 1 and 5.0 at element 3.  With consecutive slots both runs
finish, with the sums 384 and 389.  With slots at the group offsets the
first run finishes and the second never does. -/
theorem C15_results_depend_on_stale_memory :
    (main_float_pipeline .group_id 10 128 (zeroed_buffers 384)
        (List.replicate 384 1) (List.replicate 384 10)).map (fun r => r.sum_result) = .ok 384
    ∧ (main_float_pipeline .group_id 10 128
        { buffer_output_redux_min := List.replicate 384 0
          buffer_output_redux_sum := [0, 1, 0, 5] ++ List.replicate 380 0
          buffer_output_redux_std_dev := List.replicate 384 0 }
        (List.replicate 384 1) (List.replicate 384 10)).map (fun r => r.sum_result) = .ok 389
    ∧ (main_float_pipeline .group_offset 10 128 (zeroed_buffers 384)
        (List.replicate 384 1) (List.replicate 384 10)).map (fun r => r.sum_result) = .ok 128
    ∧ (∀ fuel : ℕ,
        main_float_pipeline .group_offset fuel 128
          { buffer_output_redux_min := List.replicate 384 0
            buffer_output_redux_sum := [0, 1, 0, 5] ++ List.replicate 380 0
            buffer_output_redux_std_dev := List.replicate 384 0 }
          (List.replicate 384 1) (List.replicate 384 10) = .error .out_of_fuel) := by
  refine ⟨by decide!, by decide!, by decide!, ?_⟩
  intro fuel
  rw [main_float_pipeline_no_padding .group_offset fuel 128 _ _ _ (by decide!)]
  have hlen : (List.replicate 384 (1 : ℚ)).length = 384 := by decide!
  rw [hlen]
  cases fuel with
  | zero => exact float_reduction_max_error (tree_reduction_zero_fuel _ _ _ _ _ _ _)
  | succ fuel =>
    have hmax := tree_reduction_stops .group_offset .reduction_max .reduction_max 384 128
      (List.replicate 384 1) (List.replicate 384 0) 1 (by decide!) (by decide!) fuel
    have hmin := tree_reduction_stops .group_offset .reduction_min .reduction_min 384 128
      (List.replicate 384 1) (List.replicate 384 0) 1 (by decide!) (by decide!) fuel
    have hsum := tree_reduction_stuck .group_offset .reduction_sum .reduction_sum 384 128
      (List.replicate 384 1) ([0, 1, 0, 5] ++ List.replicate 380 0) 1
      (fun buf => enqueue_keeps_one_group_offset .reduction_sum 384 128 (by decide) buf buf)
      (by decide!) one_ne_zero (fuel + 1)
    exact float_reduction_sum_error hmax hmin hsum

/-- C19, evaluated on the 384 readings of C3 (128 of 1.0, 128 of 0.0, 128
of 1.0) with the work-group size 128 and a zeroed sum buffer: the loop stops
after the first launch because element 1 of the read-back is 0, yet the slot
of the third work-group, written by that launch, holds 128, and element 0
holds 128 where the partial results add up to 256. -/
theorem C19_live_partial_left_when_loop_stops :
    (∀ layout : SlotLayout,
      (convergence_loop layout .reduction_sum 384 128 10
        (enqueueNDRangeKernel layout .reduction_sum 384 128
          (List.replicate 128 1 ++ List.replicate 128 0 ++ List.replicate 128 1)
          (List.replicate 384 0)) 1).map
        (fun p => (p.2, p.1[0]?, p.1[1]?, p.1[layout.slot 128 2]?))
        = .ok (1, some 128, some 0, some 128))
    ∧ linear_sum (List.replicate 128 1 ++ List.replicate 128 0 ++ List.replicate 128 1) = 256 := by
  refine ⟨?_, by decide!⟩
  intro layout
  cases layout <;> decide!

/-- C20, evaluated on 128 readings of 5.0 (fixed-point 50) with the
work-group size 128 and output buffers whose memory holds 7 when created.
Only the two max buffers are filled with zeros by the source.  In the integer
pipeline the stale 7 is the reported minimum, is added to the sum 6400 and is
the squared-deviation result; in the floating pipeline element 1 of the
first read-back is 0 for max and 7 for min, sum and squared deviations. -/
theorem C20_only_max_buffers_are_zeroed :
    main_integer_pipeline 128 (stale_int_buffers 128 7)
        (List.replicate 128 5) (List.replicate 128 50)
      = .ok
        { max_result := 50
          min_result := 7
          sum_result := 6407
          max_temperature := 5
          min_temperature := 7 / 10
          mean_float := 6407 / 1280
          mean_int := 50
          std_dev_result := 7
          variance_float := 7 / 1280 }
    ∧ (∀ layout : SlotLayout,
        (enqueueNDRangeKernel layout .reduction_max 128 128 (List.replicate 128 5)
          (List.replicate 128 0))[1]? = some 0
        ∧ (enqueueNDRangeKernel layout .reduction_min 128 128 (List.replicate 128 5)
          (stale_buffers 128 7).buffer_output_redux_min)[1]? = some 7
        ∧ (enqueueNDRangeKernel layout .reduction_sum 128 128 (List.replicate 128 5)
          (stale_buffers 128 7).buffer_output_redux_sum)[1]? = some 7
        ∧ (enqueueNDRangeKernel layout (.reduction_standard_deviation 5) 128 128
          (List.replicate 128 5) (stale_buffers 128 7).buffer_output_redux_std_dev)[1]?
            = some 7) := by
  refine ⟨by decide!, ?_⟩
  intro layout
  cases layout <;> decide!

/-! ## Facts about the parse -/

/-- A text with too few spaces to reach a count of five leaves nothing. -/
theorem number_to_string_few_spaces :
    ∀ (t : List Char) (n : ℕ), n + t.count (Char.ofNat 32) < 5 → number_to_string n t = [] := by
  intro t
  induction t with
  | nil => intro n _; rfl
  | cons a t ih =>
    intro n h
    have hn : n < 5 := by omega
    by_cases ha : a = Char.ofNat 32
    · subst ha
      simp only [number_to_string, hn, if_true]
      apply ih
      simp only [List.count_cons_self] at h
      omega
    · simp only [number_to_string, hn, if_true, ha, if_false]
      apply ih
      rw [List.count_cons_of_ne (fun h' => ha h'.symm)] at h
      exact h

theorem load_lines_error_of_mem {α : Type} (parse : String → Except ParseFault α)
    (line : String) (e : ParseFault) (hbad : parse line = .error e) :
    ∀ lines : List String, line ∈ lines → ∃ e', load_lines parse lines = .error e' := by
  intro lines
  induction lines with
  | nil => intro h; cases h
  | cons l rest ih =>
    intro hmem
    cases hl : parse l with
    | error e1 => exact ⟨e1, by simp only [load_lines, hl]⟩
    | ok v =>
      have hrest : line ∈ rest := by
        rcases List.mem_cons.mp hmem with h | h
        · rw [h, hl] at hbad
          cases hbad
        · exact h
      obtain ⟨e', he'⟩ := ih hrest
      exact ⟨e', by simp only [load_lines, hl, he']⟩

theorem load_lines_forall₂ {α : Type} (parse : String → Except ParseFault α) :
    ∀ (lines : List String) (vs : List α), load_lines parse lines = .ok vs →
      List.Forall₂ (fun l v => parse l = .ok v) lines vs := by
  intro lines
  induction lines with
  | nil =>
    intro vs h
    simp only [load_lines] at h
    injection h with h
    subst h
    exact List.Forall₂.nil
  | cons l rest ih =>
    intro vs h
    simp only [load_lines] at h
    split at h
    · cases h
    · rename_i v hv
      split at h
      · cases h
      · rename_i ws hws
        injection h with h
        subst h
        exact List.Forall₂.cons hv (ih ws hws)

theorem parse_string_to_int_error {line : String} {e : ParseFault}
    (h : parse_string_to_float line = .error e) : parse_string_to_int line = .error e := by
  unfold parse_string_to_float at h
  unfold parse_string_to_int
  rw [h]
  rfl

theorem main_load_error (platform : Platform) (lines : List String) (e : ParseFault)
    (h : load_file_float (some lines) = .error e) :
    main platform (some lines) = .error (.load e) := by
  unfold main
  simp only [h, Except.mapError, bind, Except.bind]

/-- C17 fails as stated.  In the line `BARKSTON_HEATH 1996 01 01 0000 12:30`
the sixth field `12:30` is not a numeral, but `stof` reads the literal it
starts with and both loads yield a value.  The line
`BARKSTON_HEATH 1996 01 01  5` has five fields and no sixth, but its double
space brings the count to five and the load yields 5. -/
theorem C17_counterexample_literal_at_start :
    (whitespace_fields "BARKSTON_HEATH 1996 01 01 0000 12:30".data)[5]? = some "12:30".data
    ∧ only_numeral_characters "12:30".data = false
    ∧ load_file_float (some ["BARKSTON_HEATH 1996 01 01 0000 12:30"]) = .ok [12]
    ∧ load_file_int (some ["BARKSTON_HEATH 1996 01 01 0000 12:30"]) = .ok [120]
    ∧ (whitespace_fields "BARKSTON_HEATH 1996 01 01  5".data).length = 5
    ∧ load_file_float (some ["BARKSTON_HEATH 1996 01 01  5"]) = .ok [5] := by
  refine ⟨by decide!, by decide!, by decide!, by decide!, by decide!, by decide!⟩

/-- C17 as amended: when `stof` finds no literal in the text after the fifth
space of some line of the file, both loads fail and `main` ends in the load
error before any platform call or reduction; every reading of a loaded
dataset is the parse of its line; and a line with fewer than five spaces has
no such literal. -/
theorem C17_load_fails_without_literal (lines : List String) :
    (∀ line ∈ lines, parse_string_to_float line = .error .invalid_argument →
        (∃ e, load_file_float (some lines) = .error e)
        ∧ (∃ e, load_file_int (some lines) = .error e)
        ∧ (∀ platform : Platform, ∃ e, main platform (some lines) = .error (.load e)))
    ∧ (∀ exact : List ℚ, load_file_float (some lines) = .ok exact →
        List.Forall₂ (fun l x => parse_string_to_float l = .ok x) lines exact)
    ∧ (∀ line : String, line.data.count (Char.ofNat 32) < 5 →
        parse_string_to_float line = .error .invalid_argument
        ∧ parse_string_to_int line = .error .invalid_argument) := by
  refine ⟨?_, ?_, ?_⟩
  · intro line hmem hbad
    obtain ⟨e1, he1⟩ := load_lines_error_of_mem parse_string_to_float line _ hbad lines hmem
    obtain ⟨e2, he2⟩ := load_lines_error_of_mem parse_string_to_int line _
      (parse_string_to_int_error hbad) lines hmem
    exact ⟨⟨e1, he1⟩, ⟨e2, he2⟩, fun platform => ⟨e1, main_load_error platform lines e1 he1⟩⟩
  · intro exact h
    exact load_lines_forall₂ parse_string_to_float lines exact h
  · intro line hcount
    have hnum : number_to_string 0 line.data = [] :=
      number_to_string_few_spaces line.data 0 (by omega)
    have hfloat : parse_string_to_float line = .error .invalid_argument := by
      unfold parse_string_to_float
      rw [hnum]
      rfl
    exact ⟨hfloat, parse_string_to_int_error hfloat⟩

/-- Witness for C17: a file whose second line has no temperature. -/
theorem C17_load_fails_without_literal_witness :
    ∃ e, load_file_float
      (some ["BARKSTON_HEATH 1996 01 01 0000 -4.2", "BARKSTON_HEATH 1996 01 01"]) = .error e :=
  ((C17_load_fails_without_literal
      ["BARKSTON_HEATH 1996 01 01 0000 -4.2", "BARKSTON_HEATH 1996 01 01"]).1
    "BARKSTON_HEATH 1996 01 01" (by decide) (by decide!)).1

/-! ## The launch bound with zeroed output buffers -/

theorem foldl_set_length {α : Type} (idx : ℕ → ℕ) (val : ℕ → α) :
    ∀ (gs : List ℕ) (out : List α),
      (gs.foldl (fun o g => o.set (idx g) (val g)) out).length = out.length := by
  intro gs
  induction gs with
  | nil => intro out; rfl
  | cons g gs ih =>
    intro out
    rw [List.foldl_cons, ih, List.length_set]

theorem enqueue_length (layout : SlotLayout) (kernel : Kernel) (L W : ℕ)
    (input output : List ℚ) :
    (enqueueNDRangeKernel layout kernel L W input output).length = output.length := by
  unfold enqueueNDRangeKernel
  exact foldl_set_length _ _ _ _

theorem foldl_set_range_getElem? {α : Type} (val : ℕ → α) (out : List α) :
    ∀ (G i : ℕ), i < G → i < out.length →
      ((List.range G).foldl (fun o g => o.set g (val g)) out)[i]? = some (val i) := by
  intro G
  induction G with
  | zero => intro i hi; omega
  | succ G ih =>
    intro i hi hlen
    rw [List.range_succ, List.foldl_append, List.foldl_cons, List.foldl_nil]
    by_cases h : i = G
    · subst h
      apply List.getElem?_set_self
      rw [foldl_set_length (fun g => g) val]
      exact hlen
    · rw [List.getElem?_set_ne (fun h' => h h'.symm)]
      exact ih i (by omega) hlen

/-- With consecutive slots a launch stores the result of group `i` at
element `i`. -/
theorem enqueue_group_id_written (kernel : Kernel) (L W : ℕ) (input output : List ℚ)
    (i : ℕ) (hi : i < L / W) (hlen : i < output.length) :
    (enqueueNDRangeKernel .group_id kernel L W input output)[i]?
      = some (kernel.group_result (group_slice W i input)) := by
  unfold enqueueNDRangeKernel
  exact foldl_set_range_getElem? (fun g => kernel.group_result (group_slice W g input))
    output (L / W) i hi hlen

theorem foldl_max_zero : ∀ xs : List ℚ, (∀ x ∈ xs, x = 0) → xs.foldl max 0 = 0 := by
  intro xs
  induction xs with
  | nil => intro _; rfl
  | cons a xs ih =>
    intro h
    rw [List.foldl_cons, h a (List.mem_cons_self a xs), max_self]
    exact ih (fun x hx => h x (List.mem_cons_of_mem a hx))

theorem foldl_min_zero : ∀ xs : List ℚ, (∀ x ∈ xs, x = 0) → xs.foldl min 0 = 0 := by
  intro xs
  induction xs with
  | nil => intro _; rfl
  | cons a xs ih =>
    intro h
    rw [List.foldl_cons, h a (List.mem_cons_self a xs), min_self]
    exact ih (fun x hx => h x (List.mem_cons_of_mem a hx))

theorem foldl_add_zero : ∀ xs : List ℚ, (∀ x ∈ xs, x = 0) → xs.foldl (· + ·) 0 = 0 := by
  intro xs
  induction xs with
  | nil => intro _; rfl
  | cons a xs ih =>
    intro h
    rw [List.foldl_cons, h a (List.mem_cons_self a xs), add_zero]
    exact ih (fun x hx => h x (List.mem_cons_of_mem a hx))

theorem keeps_zero_max : keeps_zero .reduction_max := by
  intro slice h
  cases slice with
  | nil => rfl
  | cons a xs =>
    show xs.foldl max a = 0
    rw [h a (List.mem_cons_self a xs)]
    exact foldl_max_zero xs (fun x hx => h x (List.mem_cons_of_mem a hx))

theorem keeps_zero_min : keeps_zero .reduction_min := by
  intro slice h
  cases slice with
  | nil => rfl
  | cons a xs =>
    show xs.foldl min a = 0
    rw [h a (List.mem_cons_self a xs)]
    exact foldl_min_zero xs (fun x hx => h x (List.mem_cons_of_mem a hx))

theorem keeps_zero_sum : keeps_zero .reduction_sum := by
  intro slice h
  exact foldl_add_zero slice h

/-- Every element of the slice of group `i` lies at an index from `i * W` on. -/
theorem mem_group_slice {W i : ℕ} {buf : List ℚ} {x : ℚ} (hx : x ∈ group_slice W i buf) :
    ∃ j, buf[i * W + j]? = some x := by
  unfold group_slice at hx
  obtain ⟨j, hj⟩ := List.getElem?_of_mem hx
  rw [List.getElem?_take] at hj
  split at hj
  · rw [List.getElem?_drop] at hj
    exact ⟨j, hj⟩
  · cases hj

/-- A first launch into a zeroed buffer leaves zeros from the number of
groups on, with consecutive slots. -/
theorem zero_from_first_launch (kernel : Kernel) (L W : ℕ) (input : List ℚ) :
    zero_from (L / W) (enqueueNDRangeKernel .group_id kernel L W input (List.replicate L 0)) := by
  intro i v hi hv
  rw [enqueue_getElem?_of_untouched .group_id kernel L W input _ i
    (fun g hg => by simp only [SlotLayout.slot]; omega)] at hv
  exact List.eq_of_mem_replicate (List.getElem?_mem hv)

/-- An in-place launch of a kernel that keeps zeros shrinks the non-zero
part of the buffer by the factor `W`, with consecutive slots. -/
theorem zero_from_in_place_launch (kernel : Kernel) (hk : keeps_zero kernel) (W g n : ℕ)
    (hW : 0 < W) (buf : List ℚ) (hlen : buf.length = g * W) (hn : n ≤ g)
    (hzero : zero_from n buf) :
    zero_from ((n + W - 1) / W) (enqueueNDRangeKernel .group_id kernel (g * W) W buf buf) := by
  have hdiv : g * W / W = g := Nat.mul_div_cancel g hW
  intro i v hi hv
  by_cases hig : i < g
  · have hilen : i < buf.length := by
      rw [hlen]
      calc i < g := hig
        _ = g * 1 := (Nat.mul_one g).symm
        _ ≤ g * W := Nat.mul_le_mul_left g hW
    rw [enqueue_group_id_written kernel (g * W) W buf buf i (by rw [hdiv]; exact hig) hilen] at hv
    injection hv with hv
    rw [← hv]
    apply hk
    intro x hx
    obtain ⟨j, hj⟩ := mem_group_slice hx
    apply hzero (i * W + j) x _ hj
    have h1 : n + W - 1 < (i + 1) * W := (Nat.div_lt_iff_lt_mul hW).mp (Nat.lt_succ_of_le hi)
    rw [Nat.add_mul, Nat.one_mul] at h1
    omega
  · rw [enqueue_getElem?_of_untouched .group_id kernel (g * W) W buf buf i
      (fun g' hg' => by simp only [SlotLayout.slot]; rw [hdiv] at hg'; omega)] at hv
    exact hzero i v (by omega) hv

theorem ceil_div_lt {W n : ℕ} (hW : 2 ≤ W) (hn : 2 ≤ n) : (n + W - 1) / W < n := by
  apply (Nat.div_lt_iff_lt_mul (by omega)).mpr
  have h1 : n * 2 ≤ n * W := Nat.mul_le_mul_left n hW
  have h2 : 2 * W ≤ n * W := Nat.mul_le_mul_right W hn
  omega

/-- With consecutive slots, a kernel that keeps zeros and a buffer whose
elements from `n` on are zero, the loop stops within `clog W n` further
launches. -/
theorem convergence_loop_group_id_bound (kernel : Kernel) (hk : keeps_zero kernel)
    (W g : ℕ) (hW : 2 ≤ W) (hg : 1 ≤ g) :
    ∀ (n : ℕ) (buf : List ℚ) (k fuel : ℕ), zero_from n buf → n ≤ g → buf.length = g * W →
      Nat.clog W n + 1 ≤ fuel →
      ∃ final k', convergence_loop .group_id kernel (g * W) W fuel buf k = .ok (final, k')
        ∧ k ≤ k' ∧ k' ≤ k + Nat.clog W n ∧ final.length = g * W := by
  intro n
  induction n using Nat.strong_induction_on with
  | _ n ih =>
    intro buf k fuel hzero hn hlen hfuel
    have hL : 2 ≤ buf.length := by
      rw [hlen]
      calc 2 ≤ W := hW
        _ = 1 * W := (Nat.one_mul W).symm
        _ ≤ g * W := Nat.mul_le_mul_right W hg
    obtain ⟨fuel', rfl⟩ : ∃ f, fuel = f + 1 := ⟨fuel - 1, by omega⟩
    have h1 : buf[1]? = some (buf[1]) := List.getElem?_eq_getElem (by omega)
    unfold convergence_loop
    simp only [h1]
    by_cases hx : buf[1] = 0
    · simp only [hx, if_true]
      exact ⟨buf, k, rfl, le_refl k, Nat.le_add_right _ _, hlen⟩
    · simp only [hx, if_false]
      have hn2 : 2 ≤ n := by
        by_contra hcon
        exact hx (hzero 1 _ (by omega) h1)
      have hlt := ceil_div_lt hW hn2
      have hclog : Nat.clog W n = Nat.clog W ((n + W - 1) / W) + 1 :=
        Nat.clog_of_two_le (by omega) hn2
      obtain ⟨final, k', hrun, hkl, hk', hfl⟩ := ih ((n + W - 1) / W) hlt
        (enqueueNDRangeKernel .group_id kernel (g * W) W buf buf) (k + 1) fuel'
        (zero_from_in_place_launch kernel hk W g n (by omega) buf hlen hn hzero)
        (by omega) (by rw [enqueue_length, hlen]) (by omega)
      exact ⟨final, k', hrun, by omega, by omega, hfl⟩

/-- With output buffers that hold zeros, a first kernel of any kind and a
loop kernel that keeps zeros (max, min or sum), a statistic over a buffer of
`g` groups of `W >= 2` elements finishes, under either slot layout, within
`clog W (g * W) + 1` launches (`clog` is the logarithm rounded up) once the
fuel allows that many passes. -/
theorem tree_reduction_launch_bound (layout : SlotLayout) (first next : Kernel)
    (hk : keeps_zero next) (W g : ℕ) (hW : 2 ≤ W) (hg : 1 ≤ g) (input : List ℚ) (fuel : ℕ)
    (hfuel : Nat.clog W (g * W) + 1 ≤ fuel) :
    ∃ v k, tree_reduction layout first next (g * W) W fuel input (List.replicate (g * W) 0)
        = .ok (v, k)
      ∧ 1 ≤ k ∧ k ≤ Nat.clog W (g * W) + 1 := by
  have hL : 2 ≤ g * W := by
    calc 2 ≤ W := hW
      _ = 1 * W := (Nat.one_mul W).symm
      _ ≤ g * W := Nat.mul_le_mul_right W hg
  have hlen0 : (enqueueNDRangeKernel layout first (g * W) W input
      (List.replicate (g * W) 0)).length = g * W := by
    rw [enqueue_length, List.length_replicate]
  cases layout with
  | group_offset =>
    obtain ⟨fuel', rfl⟩ : ∃ f, fuel = f + 1 := ⟨fuel - 1, by omega⟩
    have h1 : (enqueueNDRangeKernel .group_offset first (g * W) W input
        (List.replicate (g * W) 0))[1]? = some 0 := by
      rw [enqueue_keeps_one_group_offset first (g * W) W hW]
      exact List.getElem?_replicate_of_lt (by omega)
    have h0 := List.getElem?_eq_getElem (l := enqueueNDRangeKernel .group_offset first (g * W) W
      input (List.replicate (g * W) 0)) (n := 0) (by omega)
    exact ⟨_, 1, tree_reduction_stops .group_offset first next (g * W) W input _ _ h1 h0 fuel',
      le_refl 1, by omega⟩
  | group_id =>
    have hdiv : g * W / W = g := Nat.mul_div_cancel g (by omega)
    have hzero := zero_from_first_launch first (g * W) W input
    rw [hdiv] at hzero
    have hclog : Nat.clog W (g * W) = Nat.clog W g + 1 := by
      rw [Nat.clog_of_two_le (by omega) hL]
      congr 2
      have : g * W + W - 1 = (W - 1) + W * g := by
        rw [Nat.mul_comm g W]
        omega
      rw [this, Nat.add_mul_div_left _ _ (by omega : 0 < W)]
      rw [Nat.div_eq_of_lt (by omega), Nat.zero_add]
    obtain ⟨final, k', hrun, hk1, hk', hfl⟩ := convergence_loop_group_id_bound next hk W g hW hg g
      (enqueueNDRangeKernel .group_id first (g * W) W input (List.replicate (g * W) 0)) 1 fuel
      hzero (le_refl g) hlen0 (by omega)
    have h0 := List.getElem?_eq_getElem (l := final) (n := 0) (by omega)
    refine ⟨final[0], k', ?_, hk1, by omega⟩
    unfold tree_reduction
    simp only [hrun, h0]

/-! ## Facts about the recorded runs -/

/-- Without its events the recorded loop is the loop. -/
theorem convergence_loop_log_erase (layout : SlotLayout) (stage : Stage) (kernel : Kernel)
    (L W : ℕ) :
    ∀ (fuel : ℕ) (result : List ℚ) (k : ℕ),
      (convergence_loop_log layout stage kernel L W fuel result k).map (fun p => (p.1, p.2.1))
        = convergence_loop layout kernel L W fuel result k := by
  intro fuel
  induction fuel with
  | zero => intro result k; rfl
  | succ fuel ih =>
    intro result k
    unfold convergence_loop_log convergence_loop
    cases result[1]? with
    | none => rfl
    | some v =>
      by_cases hv : v = 0
      · simp only [hv, if_true]
        rfl
      · simp only [hv, if_false]
        rw [← ih]
        cases convergence_loop_log layout stage kernel L W fuel
            (enqueueNDRangeKernel layout kernel L W result result) (k + 1) with
        | error e => rfl
        | ok p => rfl

/-- A finished recorded loop stopped on a zero at element 1 of its last host
copy, made `k' - k` passes, and recorded exactly those passes. -/
theorem convergence_loop_log_ok (layout : SlotLayout) (stage : Stage) (kernel : Kernel)
    (L W : ℕ) :
    ∀ (fuel : ℕ) (result : List ℚ) (k : ℕ) (final : List ℚ) (k' : ℕ)
      (events : List (Event Kernel)),
      convergence_loop_log layout stage kernel L W fuel result k = .ok (final, k', events) →
      k ≤ k' ∧ events = loop_events stage kernel (k' - k) ∧ final[1]? = some 0 := by
  intro fuel
  induction fuel with
  | zero =>
    intro result k final k' events h
    simp [convergence_loop_log] at h
  | succ fuel ih =>
    intro result k final k' events h
    unfold convergence_loop_log at h
    split at h
    · cases h
    · rename_i v hv1
      by_cases hv : v = 0
      · simp only [hv, if_true] at h
        injection h with h
        injection h with h1 h2
        injection h2 with h2 h3
        subst h1 h2 h3
        rw [hv] at hv1
        exact ⟨le_refl _, by simp [loop_events], hv1⟩
      · simp only [hv, if_false] at h
        split at h
        · cases h
        · rename_i f l es hrec
          injection h with h
          injection h with h1 h2
          injection h2 with h2 h3
          subst h1 h2 h3
          obtain ⟨hle, hes, hstop⟩ := ih _ _ _ _ _ hrec
          refine ⟨by omega, ?_, hstop⟩
          have : l - k = (l - (k + 1)) + 1 := by omega
          rw [this, hes]
          rfl

/-- Without its events a recorded statistic is the statistic. -/
theorem tree_reduction_log_erase (layout : SlotLayout) (stage : Stage) (first next : Kernel)
    (L W fuel : ℕ) (input output : List ℚ) :
    (tree_reduction_log layout stage first next L W fuel input output).map
        (fun s => (s.value, s.kernel_launches))
      = tree_reduction layout first next L W fuel input output := by
  unfold tree_reduction_log tree_reduction
  simp only []
  rw [← convergence_loop_log_erase layout stage next L W fuel _ 1]
  cases convergence_loop_log layout stage next L W fuel
      (enqueueNDRangeKernel layout first L W input output) 1 with
  | error e => rfl
  | ok p =>
    obtain ⟨final, k, es⟩ := p
    simp only [Except.map]
    cases final[0]? with
    | none => rfl
    | some v => rfl

/-- A finished recorded statistic: it is the statistic; its events are the
first launch of `first` from the input buffer, a read-back, and one in-place
launch of `next` with a read-back for every further launch counted; its
value is element 0 of the last host copy, whose element 1 is zero. -/
theorem tree_reduction_log_ok {layout : SlotLayout} {stage : Stage} {first next : Kernel}
    {L W fuel : ℕ} {input output : List ℚ} {s : StageRun}
    (h : tree_reduction_log layout stage first next L W fuel input output = .ok s) :
    tree_reduction layout first next L W fuel input output = .ok (s.value, s.kernel_launches)
    ∧ 1 ≤ s.kernel_launches
    ∧ s.events
        = .launch stage first false :: .read_back stage
            :: loop_events stage next (s.kernel_launches - 1)
    ∧ s.host_copy[0]? = some s.value
    ∧ s.host_copy[1]? = some 0 := by
  have herase := tree_reduction_log_erase layout stage first next L W fuel input output
  rw [h] at herase
  refine ⟨herase.symm, ?_⟩
  unfold tree_reduction_log at h
  simp only [] at h
  split at h
  · cases h
  · rename_i final k es hloop
    split at h
    · cases h
    · rename_i v hv
      injection h with h
      subst h
      obtain ⟨hle, hes, hstop⟩ := convergence_loop_log_ok layout stage next L W fuel _ 1 _ _ _ hloop
      exact ⟨hle, by rw [hes], hv, hstop⟩

theorem tree_reduction_of_log_error {layout : SlotLayout} {stage : Stage} {first next : Kernel}
    {L W fuel : ℕ} {input output : List ℚ} {e : Fault}
    (h : tree_reduction_log layout stage first next L W fuel input output = .error e) :
    tree_reduction layout first next L W fuel input output = .error e := by
  have herase := tree_reduction_log_erase layout stage first next L W fuel input output
  rw [h] at herase
  exact herase.symm

theorem tree_reduction_of_log_ok {layout : SlotLayout} {stage : Stage} {first next : Kernel}
    {L W fuel : ℕ} {input output : List ℚ} {s : StageRun}
    (h : tree_reduction_log layout stage first next L W fuel input output = .ok s) :
    tree_reduction layout first next L W fuel input output = .ok (s.value, s.kernel_launches) :=
  (tree_reduction_log_ok h).1

/-- Without its events the recorded run of `float_reduction` is the run. -/
theorem float_reduction_log_fst (layout : SlotLayout) (fuel N : ℕ) (fresh : FreshBuffers)
    (L : ℕ) (input : List ℚ) (W : ℕ) :
    (float_reduction_log layout fuel N fresh L input W).map Prod.fst
      = float_reduction layout fuel N fresh L input W := by
  unfold float_reduction_log float_reduction
  simp only [bind, Except.bind, pure, Except.pure]
  cases h1 : tree_reduction_log layout .max .reduction_max .reduction_max L W fuel input
      (List.replicate L 0) with
  | error e => rw [tree_reduction_of_log_error h1]; rfl
  | ok s1 =>
    rw [tree_reduction_of_log_ok h1]
    simp only []
    cases h2 : tree_reduction_log layout .min .reduction_min .reduction_min L W fuel input
        fresh.buffer_output_redux_min with
    | error e => rw [tree_reduction_of_log_error h2]; rfl
    | ok s2 =>
      rw [tree_reduction_of_log_ok h2]
      simp only []
      cases h3 : tree_reduction_log layout .sum .reduction_sum .reduction_sum L W fuel input
          fresh.buffer_output_redux_sum with
      | error e => rw [tree_reduction_of_log_error h3]; rfl
      | ok s3 =>
        rw [tree_reduction_of_log_ok h3]
        simp only []
        cases hm : divide_by_entries s3.value N with
        | error e => rfl
        | ok m =>
          simp only []
          cases h4 : tree_reduction_log layout .variance (.reduction_standard_deviation m)
              .reduction_sum L W fuel input fresh.buffer_output_redux_std_dev with
          | error e => rw [tree_reduction_of_log_error h4]; rfl
          | ok s4 =>
            rw [tree_reduction_of_log_ok h4]
            simp only []
            cases hv : divide_by_entries s4.value N with
            | error e => rfl
            | ok v => rfl

/-- A finished recorded run of `float_reduction` read backwards: its four
recorded statistics, its two divisions, and its events in program order. -/
theorem float_reduction_log_ok {layout : SlotLayout} {fuel N L W : ℕ} {fresh : FreshBuffers}
    {input : List ℚ} {r : FloatStatistics} {log : List (Event Kernel)}
    (h : float_reduction_log layout fuel N fresh L input W = .ok (r, log)) :
    ∃ run_max run_min run_sum run_std_dev : StageRun,
      tree_reduction_log layout .max .reduction_max .reduction_max L W fuel input
          (List.replicate L 0) = .ok run_max
      ∧ tree_reduction_log layout .min .reduction_min .reduction_min L W fuel input
          fresh.buffer_output_redux_min = .ok run_min
      ∧ tree_reduction_log layout .sum .reduction_sum .reduction_sum L W fuel input
          fresh.buffer_output_redux_sum = .ok run_sum
      ∧ divide_by_entries run_sum.value N = .ok r.mean_float
      ∧ tree_reduction_log layout .variance (.reduction_standard_deviation r.mean_float)
          .reduction_sum L W fuel input fresh.buffer_output_redux_std_dev = .ok run_std_dev
      ∧ divide_by_entries run_std_dev.value N = .ok r.variance_float
      ∧ r.sum_result = run_sum.value
      ∧ r.std_dev_result = run_std_dev.value
      ∧ log = run_max.events ++ run_min.events ++ run_sum.events
          ++ [.divide .mean run_sum.value] ++ run_std_dev.events
          ++ [.divide .variance run_std_dev.value, .square_root r.variance_float] := by
  unfold float_reduction_log at h
  simp only [bind, Except.bind, pure, Except.pure] at h
  split at h
  · cases h
  · rename_i s1 h1
    split at h
    · cases h
    · rename_i s2 h2
      split at h
      · cases h
      · rename_i s3 h3
        split at h
        · cases h
        · rename_i m hm
          split at h
          · cases h
          · rename_i s4 h4
            split at h
            · cases h
            · rename_i v hv
              injection h with h
              injection h with hr hlog
              subst hr
              exact ⟨s1, s2, s3, s4, h1, h2, h3, hm, h4, hv, rfl, rfl, hlog.symm⟩

/-- Without its events the recorded run of `integer_reduction` is the run. -/
theorem integer_reduction_log_fst (N : ℕ) (fresh : FreshIntBuffers) (L : ℕ)
    (input : List ℤ) :
    (integer_reduction_log N fresh L input).map Prod.fst = integer_reduction N fresh L input := by
  unfold integer_reduction_log integer_reduction
  simp only [bind, Except.bind, pure, Except.pure]
  cases atomic_reduction .reduction_max_int L input (List.replicate L 0) with
  | error e => rfl
  | ok v1 =>
    simp only []
    cases atomic_reduction .reduction_min_int L input fresh.buffer_output_redux_min with
    | error e => rfl
    | ok v2 =>
      simp only []
      cases atomic_reduction .reduction_sum_int L input fresh.buffer_output_redux_sum with
      | error e => rfl
      | ok v3 =>
        simp only []
        cases divide_by_entries (decode_tenths v3) N with
        | error e => rfl
        | ok m =>
          simp only []
          cases atomic_reduction (.reduction_standard_deviation_int (float_to_int (m * 10))) L
              input fresh.buffer_output_redux_std_dev with
          | error e => rfl
          | ok v4 =>
            simp only []
            cases divide_by_entries (decode_tenths v4) N with
            | error e => rfl
            | ok v => rfl

/-- A finished recorded run of `integer_reduction` read backwards: the sum
read back, the mean and its fixed-point form computed from it, and the
events in program order. -/
theorem integer_reduction_log_ok {N L : ℕ} {fresh : FreshIntBuffers} {input : List ℤ}
    {r : IntegerStatistics} {log : List (Event AtomicKernel)}
    (h : integer_reduction_log N fresh L input = .ok (r, log)) :
    atomic_reduction .reduction_sum_int L input fresh.buffer_output_redux_sum = .ok r.sum_result
    ∧ divide_by_entries (decode_tenths r.sum_result) N = .ok r.mean_float
    ∧ r.mean_int = float_to_int (r.mean_float * 10)
    ∧ atomic_reduction (.reduction_standard_deviation_int r.mean_int) L input
        fresh.buffer_output_redux_std_dev = .ok r.std_dev_result
    ∧ divide_by_entries (decode_tenths r.std_dev_result) N = .ok r.variance_float
    ∧ log = atomic_events .max .reduction_max_int ++ atomic_events .min .reduction_min_int
        ++ atomic_events .sum .reduction_sum_int
        ++ [.divide .mean (decode_tenths r.sum_result)]
        ++ atomic_events .variance (.reduction_standard_deviation_int r.mean_int)
        ++ [.divide .variance (decode_tenths r.std_dev_result), .square_root r.variance_float] := by
  unfold integer_reduction_log at h
  simp only [bind, Except.bind, pure, Except.pure] at h
  split at h
  · cases h
  · split at h
    · cases h
    · split at h
      · cases h
      · rename_i v3 h3
        split at h
        · cases h
        · rename_i m hm
          split at h
          · cases h
          · rename_i v4 h4
            split at h
            · cases h
            · rename_i v hv
              injection h with h
              injection h with hr hlog
              subst hr
              exact ⟨h3, hm, rfl, h4, hv, hlog.symm⟩

/-! ## Facts about the order of the stages -/

theorem mem_loop_events {stage : Stage} {kernel : Kernel} {e : Event Kernel} :
    ∀ n : ℕ, e ∈ loop_events stage kernel n →
      e = .launch stage kernel true ∨ e = .read_back stage := by
  intro n
  induction n with
  | zero => intro h; cases h
  | succ n ih =>
    intro h
    simp only [loop_events, List.mem_cons] at h
    rcases h with h | h | h
    · exact Or.inl h
    · exact Or.inr h
    · exact ih h

theorem loop_events_stage (stage : Stage) (kernel : Kernel) :
    ∀ n : ℕ, (loop_events stage kernel n).map Event.stage = List.replicate (2 * n) stage := by
  intro n
  induction n with
  | zero => rfl
  | succ n ih =>
    have : 2 * (n + 1) = (2 * n + 1) + 1 := by omega
    rw [this, List.replicate_succ, List.replicate_succ]
    simp only [loop_events, List.map_cons, Event.stage, ih]

/-- Every event of a finished recorded statistic is its first launch, a
read-back, or an in-place launch of the loop kernel. -/
theorem mem_stage_events {layout : SlotLayout} {stage : Stage} {first next : Kernel}
    {L W fuel : ℕ} {input output : List ℚ} {s : StageRun}
    (h : tree_reduction_log layout stage first next L W fuel input output = .ok s)
    {e : Event Kernel} (he : e ∈ s.events) :
    e = .launch stage first false ∨ e = .read_back stage ∨ e = .launch stage next true := by
  rw [(tree_reduction_log_ok h).2.2.1] at he
  simp only [List.mem_cons] at he
  rcases he with he | he | he
  · exact Or.inl he
  · exact Or.inr (Or.inl he)
  · rcases mem_loop_events _ he with h1 | h1
    · exact Or.inr (Or.inr h1)
    · exact Or.inr (Or.inl h1)

/-- The events of a finished recorded statistic all belong to its stage, and
there is at least one. -/
theorem stage_events_stage {layout : SlotLayout} {stage : Stage} {first next : Kernel}
    {L W fuel : ℕ} {input output : List ℚ} {s : StageRun}
    (h : tree_reduction_log layout stage first next L W fuel input output = .ok s) :
    s.events.map Event.stage = List.replicate ((2 * s.kernel_launches - 1) + 1) stage := by
  obtain ⟨_, hk, hev, _, _⟩ := tree_reduction_log_ok h
  rw [hev]
  simp only [List.map_cons, Event.stage, loop_events_stage]
  have : 2 * s.kernel_launches - 1 + 1 = (2 * (s.kernel_launches - 1) + 1) + 1 := by omega
  rw [this, List.replicate_succ, List.replicate_succ]

theorem stage_sequence_block (s : Stage) (rest : List Stage)
    (hrest : ∀ t, rest.head? = some t → t ≠ s) :
    ∀ n : ℕ, stage_sequence (List.replicate (n + 1) s ++ rest) = s :: stage_sequence rest := by
  intro n
  induction n with
  | zero =>
    cases rest with
    | nil => rfl
    | cons t r =>
      have hts : ¬ s = t := fun h => hrest t rfl h.symm
      simp [List.replicate, stage_sequence, hts]
  | succ n ih =>
    rw [List.replicate_succ, List.cons_append, List.replicate_succ, List.cons_append]
    rw [List.replicate_succ, List.cons_append] at ih
    simp only [stage_sequence, if_true]
    exact ih

/-- Blocks of max, min and sum events, one mean event, a block of variance
events and the square root are the six stages in order, once each. -/
theorem stage_sequence_pipeline (a b c d : ℕ) :
    stage_sequence
        (List.replicate (a + 1) Stage.max ++ (List.replicate (b + 1) Stage.min
          ++ (List.replicate (c + 1) Stage.sum ++ (Stage.mean
            :: (List.replicate (d + 1) Stage.variance ++ [Stage.stddev])))))
      = [.max, .min, .sum, .mean, .variance, .stddev] := by
  rw [stage_sequence_block .max _ (by simp [List.replicate_succ]) a,
    stage_sequence_block .min _ (by simp [List.replicate_succ]) b,
    stage_sequence_block .sum _ (by simp [List.replicate_succ]) c]
  have hmean : stage_sequence
      (Stage.mean :: (List.replicate (d + 1) Stage.variance ++ [Stage.stddev]))
        = Stage.mean :: stage_sequence (List.replicate (d + 1) Stage.variance ++ [Stage.stddev]) :=
    stage_sequence_block .mean _ (by simp [List.replicate_succ]) 0
  rw [hmean, stage_sequence_block .variance _ (by simp) d]
  rfl

/-! ## Claims about the order of the stages -/

/-- C21: in every completed run of `float_reduction`, and likewise of
`integer_reduction`, the events fall into the stages max, min, sum, mean,
variance, stddev, entered once each in that order; the only event of the
mean stage is the division of the sum read back when the sum reduction
stopped; and the variance kernel launched on the input buffer carries
exactly the mean of that run (`mean_float` for floats, `mean_int`, the
fixed-point form of the integer run's `mean_float`, for integers). -/
theorem C21_stages_run_once_in_order
    (layout : SlotLayout) (fuel N L W : ℕ) (fresh : FreshBuffers) (input : List ℚ)
    (r : FloatStatistics) (log : List (Event Kernel))
    (Ni Li : ℕ) (freshi : FreshIntBuffers) (inputi : List ℤ)
    (ri : IntegerStatistics) (logi : List (Event AtomicKernel))
    (hf : float_reduction_log layout fuel N fresh L input W = .ok (r, log))
    (hi : integer_reduction_log Ni freshi Li inputi = .ok (ri, logi)) :
    (float_reduction layout fuel N fresh L input W = .ok r
      ∧ stage_sequence (log.map Event.stage) = [.max, .min, .sum, .mean, .variance, .stddev]
      ∧ (∃ k, tree_reduction layout .reduction_sum .reduction_sum L W fuel input
          fresh.buffer_output_redux_sum = .ok (r.sum_result, k))
      ∧ (∀ e ∈ log, e.stage = .mean → e = .divide .mean r.sum_result)
      ∧ Event.divide .mean r.sum_result ∈ log
      ∧ r.mean_float = r.sum_result / (N : ℚ)
      ∧ (∀ kernel, Event.launch .variance kernel false ∈ log →
          kernel = .reduction_standard_deviation r.mean_float)
      ∧ Event.launch .variance (.reduction_standard_deviation r.mean_float) false ∈ log)
    ∧ (integer_reduction Ni freshi Li inputi = .ok ri
      ∧ stage_sequence (logi.map Event.stage) = [.max, .min, .sum, .mean, .variance, .stddev]
      ∧ atomic_reduction .reduction_sum_int Li inputi freshi.buffer_output_redux_sum
          = .ok ri.sum_result
      ∧ (∀ e ∈ logi, e.stage = .mean → e = .divide .mean (decode_tenths ri.sum_result))
      ∧ Event.divide .mean (decode_tenths ri.sum_result) ∈ logi
      ∧ ri.mean_float = decode_tenths ri.sum_result / (Ni : ℚ)
      ∧ ri.mean_int = float_to_int (ri.mean_float * 10)
      ∧ (∀ kernel in_place, Event.launch .variance kernel in_place ∈ logi →
          kernel = .reduction_standard_deviation_int ri.mean_int ∧ in_place = false)
      ∧ Event.launch .variance (.reduction_standard_deviation_int ri.mean_int) false ∈ logi) := by
  constructor
  · obtain ⟨run_max, run_min, run_sum, run_std, h1, h2, h3, hm, h4, hv, hsum, hstd, hlog⟩ :=
      float_reduction_log_ok hf
    have hrun : float_reduction layout fuel N fresh L input W = .ok r := by
      have := float_reduction_log_fst layout fuel N fresh L input W
      rw [hf] at this
      exact this.symm
    have hfirst : Event.launch .variance (.reduction_standard_deviation r.mean_float) false
        ∈ run_std.events := by
      rw [(tree_reduction_log_ok h4).2.2.1]
      exact List.mem_cons_self _ _
    refine ⟨hrun, ?_, ⟨_, hsum ▸ tree_reduction_of_log_ok h3⟩, ?_, ?_,
      (divide_by_entries_ok (hsum ▸ hm)).2, ?_, ?_⟩
    · rw [hlog]
      simp only [List.map_append, List.map_cons, List.map_nil, stage_events_stage h1,
        stage_events_stage h2, stage_events_stage h3, stage_events_stage h4, Event.stage,
        List.append_assoc, List.singleton_append, List.cons_append]
      have hD : List.replicate (2 * run_std.kernel_launches - 1 + 1) Stage.variance
            ++ [Stage.variance, Stage.stddev]
          = List.replicate ((2 * run_std.kernel_launches - 1 + 1) + 1) Stage.variance
            ++ [Stage.stddev] := by
        rw [List.replicate_succ' (2 * run_std.kernel_launches - 1 + 1), List.append_assoc]
        rfl
      rw [hD]
      exact stage_sequence_pipeline _ _ _ _
    · intro e he hst
      rw [hlog] at he
      simp only [List.mem_append, List.mem_cons, List.mem_singleton, List.not_mem_nil,
        or_false] at he
      rcases he with ((((he | he) | he) | he) | he) | (he | he)
      · rcases mem_stage_events h1 he with h | h | h <;> (rw [h] at hst; cases hst)
      · rcases mem_stage_events h2 he with h | h | h <;> (rw [h] at hst; cases hst)
      · rcases mem_stage_events h3 he with h | h | h <;> (rw [h] at hst; cases hst)
      · rw [he, hsum]
      · rcases mem_stage_events h4 he with h | h | h <;> (rw [h] at hst; cases hst)
      · rw [he] at hst
        cases hst
      · rw [he] at hst
        cases hst
    · rw [hlog, hsum]
      simp
    · intro kernel he
      rw [hlog] at he
      simp only [List.mem_append, List.mem_cons, List.mem_singleton, List.not_mem_nil,
        or_false] at he
      rcases he with ((((he | he) | he) | he) | he) | (he | he)
      · rcases mem_stage_events h1 he with h | h | h <;> cases h
      · rcases mem_stage_events h2 he with h | h | h <;> cases h
      · rcases mem_stage_events h3 he with h | h | h <;> cases h
      · cases he
      · rcases mem_stage_events h4 he with h | h | h
        · injection h
        · cases h
        · cases h
      · cases he
      · cases he
    · rw [hlog]
      simp only [List.mem_append]
      exact Or.inl (Or.inr hfirst)
  · obtain ⟨h3, hm, hint, _, _, hlog⟩ := integer_reduction_log_ok hi
    have hrun : integer_reduction Ni freshi Li inputi = .ok ri := by
      have := integer_reduction_log_fst Ni freshi Li inputi
      rw [hi] at this
      exact this.symm
    refine ⟨hrun, ?_, h3, ?_, ?_, (divide_by_entries_ok hm).2, hint, ?_, ?_⟩
    · rw [hlog]
      simp [atomic_events, Event.stage, stage_sequence]
    · intro e he hst
      rw [hlog] at he
      simp only [atomic_events, List.mem_append, List.mem_cons, List.mem_singleton,
        List.not_mem_nil, or_false] at he
      rcases he with (((((he | he) | (he | he)) | (he | he)) | he) | (he | he)) | (he | he)
      all_goals first
        | exact he
        | (rw [he] at hst; cases hst)
    · rw [hlog]
      simp [atomic_events]
    · intro kernel in_place he
      rw [hlog] at he
      simp only [atomic_events, List.mem_append, List.mem_cons, List.mem_singleton,
        List.not_mem_nil, or_false] at he
      rcases he with (((((he | he) | (he | he)) | (he | he)) | he) | (he | he)) | (he | he)
      all_goals first
        | (injection he with e1 e2 e3; exact ⟨e2, e3⟩)
        | cases he
    · rw [hlog]
      simp [atomic_events]

/-- Witness for C21: the float run on the readings 1, 2, 3, 4 in groups of
two and the integer run on their fixed-point forms both complete, and the
statistics they return are those of the plain runs. -/
theorem C21_stages_run_once_in_order_witness :
    float_reduction_log .group_id 10 4 (zeroed_buffers 4) 4 [1, 2, 3, 4] 2
        = .ok (⟨4, 1, 10, 5 / 2, 5, 5 / 4⟩,
          [.launch .max .reduction_max false, .read_back .max,
           .launch .max .reduction_max true, .read_back .max,
           .launch .min .reduction_min false, .read_back .min,
           .launch .min .reduction_min true, .read_back .min,
           .launch .sum .reduction_sum false, .read_back .sum,
           .launch .sum .reduction_sum true, .read_back .sum,
           .divide .mean 10,
           .launch .variance (.reduction_standard_deviation (5 / 2)) false,
           .read_back .variance,
           .launch .variance .reduction_sum true, .read_back .variance,
           .divide .variance 5, .square_root (5 / 4)])
      ∧ integer_reduction_log 4 (zeroed_int_buffers 4) 4 [10, 20, 30, 40]
        = .ok (⟨40, 0, 100, 4, 0, 5 / 2, 25, 500, 25 / 2⟩,
          [.launch .max .reduction_max_int false, .read_back .max,
           .launch .min .reduction_min_int false, .read_back .min,
           .launch .sum .reduction_sum_int false, .read_back .sum,
           .divide .mean 10,
           .launch .variance (.reduction_standard_deviation_int 25) false,
           .read_back .variance,
           .divide .variance 50, .square_root (25 / 2)])
      ∧ float_reduction .group_id 10 4 (zeroed_buffers 4) 4 [1, 2, 3, 4] 2
        = .ok ⟨4, 1, 10, 5 / 2, 5, 5 / 4⟩
      ∧ integer_reduction 4 (zeroed_int_buffers 4) 4 [10, 20, 30, 40]
        = .ok ⟨40, 0, 100, 4, 0, 5 / 2, 25, 500, 25 / 2⟩ := by
  have hf : float_reduction_log .group_id 10 4 (zeroed_buffers 4) 4 [1, 2, 3, 4] 2
      = .ok (⟨4, 1, 10, 5 / 2, 5, 5 / 4⟩,
        [.launch .max .reduction_max false, .read_back .max,
         .launch .max .reduction_max true, .read_back .max,
         .launch .min .reduction_min false, .read_back .min,
         .launch .min .reduction_min true, .read_back .min,
         .launch .sum .reduction_sum false, .read_back .sum,
         .launch .sum .reduction_sum true, .read_back .sum,
         .divide .mean 10,
         .launch .variance (.reduction_standard_deviation (5 / 2)) false,
         .read_back .variance,
         .launch .variance .reduction_sum true, .read_back .variance,
         .divide .variance 5, .square_root (5 / 4)]) := by decide!
  have hi : integer_reduction_log 4 (zeroed_int_buffers 4) 4 [10, 20, 30, 40]
      = .ok (⟨40, 0, 100, 4, 0, 5 / 2, 25, 500, 25 / 2⟩,
        [.launch .max .reduction_max_int false, .read_back .max,
         .launch .min .reduction_min_int false, .read_back .min,
         .launch .sum .reduction_sum_int false, .read_back .sum,
         .divide .mean 10,
         .launch .variance (.reduction_standard_deviation_int 25) false,
         .read_back .variance,
         .divide .variance 50, .square_root (25 / 2)]) := by decide!
  have h := C21_stages_run_once_in_order .group_id 10 4 4 2 (zeroed_buffers 4) [1, 2, 3, 4]
    _ _ 4 4 (zeroed_int_buffers 4) [10, 20, 30, 40] _ _ hf hi
  exact ⟨hf, hi, h.1.1, h.2.1⟩

/-! ## Claims about the passes of the variance stage -/

/-- In a completed run of `float_reduction` every kernel launch of the
variance stage is either the squared-deviation kernel with the mean of the
run, reading the input buffer, or the plain sum kernel launched in place on
the variance output buffer; the first of them is the squared-deviation
kernel, and the launches in place are one fewer than the launches of the
stage. -/
theorem variance_stage_passes {layout : SlotLayout} {fuel N L W : ℕ} {fresh : FreshBuffers}
    {input : List ℚ} {r : FloatStatistics} {log : List (Event Kernel)}
    (hf : float_reduction_log layout fuel N fresh L input W = .ok (r, log)) :
    (∀ kernel in_place, Event.launch .variance kernel in_place ∈ log →
        (kernel = .reduction_standard_deviation r.mean_float ∧ in_place = false)
          ∨ (kernel = .reduction_sum ∧ in_place = true))
      ∧ ∃ before k,
          log = before
            ++ (.launch .variance (.reduction_standard_deviation r.mean_float) false
              :: .read_back .variance :: loop_events .variance .reduction_sum k)
            ++ [.divide .variance r.std_dev_result, .square_root r.variance_float]
          ∧ ∀ e ∈ before, e.stage ≠ .variance := by
  obtain ⟨run_max, run_min, run_sum, run_std, h1, h2, h3, hm, h4, hv, hsum, hstd, hlog⟩ :=
    float_reduction_log_ok hf
  constructor
  · intro kernel in_place he
    rw [hlog] at he
    simp only [List.mem_append, List.mem_cons, List.mem_singleton, List.not_mem_nil,
      or_false] at he
    rcases he with ((((he | he) | he) | he) | he) | (he | he)
    · rcases mem_stage_events h1 he with h | h | h <;> cases h
    · rcases mem_stage_events h2 he with h | h | h <;> cases h
    · rcases mem_stage_events h3 he with h | h | h <;> cases h
    · cases he
    · rcases mem_stage_events h4 he with h | h | h
      · injection h with e1 e2 e3
        exact Or.inl ⟨e2, e3⟩
      · cases h
      · injection h with e1 e2 e3
        exact Or.inr ⟨e2, e3⟩
    · cases he
    · cases he
  · refine ⟨run_max.events ++ run_min.events ++ run_sum.events
      ++ [Event.divide Stage.mean run_sum.value], run_std.kernel_launches - 1, ?_, ?_⟩
    · rw [hlog, (tree_reduction_log_ok h4).2.2.1, hstd]
    · intro e he hst
      simp only [List.mem_append, List.mem_singleton] at he
      rcases he with ((he | he) | he) | he
      · rcases mem_stage_events h1 he with h | h | h <;> (rw [h] at hst; cases hst)
      · rcases mem_stage_events h2 he with h | h | h <;> (rw [h] at hst; cases hst)
      · rcases mem_stage_events h3 he with h | h | h <;> (rw [h] at hst; cases hst)
      · rw [he] at hst
        cases hst

/-- C22, failing input: 384 readings in three groups of 128 (64 times -1 and
64 times 1, then 128 zeros, then 64 times -1 and 64 times 1), output buffers
holding zeros.  The mean is 0 and the first pass of the variance stage
leaves the partial results 128, 0 and 128, whose sum is 256; the loop stops
without a further launch because the element at index 1 is zero, and the
stage returns 128, so the variance is 1/3 instead of 2/3. -/
theorem C22_variance_loop_stops_before_partials_are_added :
    ∀ layout : SlotLayout,
      float_reduction_log layout 10 384 (zeroed_buffers 384) 384
          (List.replicate 64 (-1) ++ List.replicate 64 1 ++ List.replicate 128 0
            ++ List.replicate 64 (-1) ++ List.replicate 64 1) 128
        = .ok (⟨1, -1, 0, 0, 128, 1 / 3⟩,
          [.launch .max .reduction_max false, .read_back .max,
           .launch .min .reduction_min false, .read_back .min,
           .launch .sum .reduction_sum false, .read_back .sum,
           .divide .mean 0,
           .launch .variance (.reduction_standard_deviation 0) false,
           .read_back .variance,
           .divide .variance 128, .square_root (1 / 3)])
      ∧ first_pass_partial_sum 0 128 3
          (List.replicate 64 (-1) ++ List.replicate 64 1 ++ List.replicate 128 0
            ++ List.replicate 64 (-1) ++ List.replicate 64 1) = 256
      ∧ linear_sum (enqueueNDRangeKernel layout (.reduction_standard_deviation 0) 384 128
          (List.replicate 64 (-1) ++ List.replicate 64 1 ++ List.replicate 128 0
            ++ List.replicate 64 (-1) ++ List.replicate 64 1)
          (zeroed_buffers 384).buffer_output_redux_std_dev) = 256
      ∧ linear_variance
          (List.replicate 64 (-1) ++ List.replicate 64 1 ++ List.replicate 128 0
            ++ List.replicate 64 (-1) ++ List.replicate 64 1) = 2 / 3 := by
  intro layout
  cases layout <;> decide!

end TemperatureAnalysis
